import Mathlib

/-!
Shallow embedding of the `seen` scene-rendering pipeline (`Scene.render`,
`Scene._renderSurface` and the collaborators they consume), together with
theorems checking the natural-language specification against it.

The `Scene` class itself (projection composition, the per-surface render loop,
visibility filtering, shading invocation, point quantization, the render-model
cache, and the painter's-algorithm depth sort) is translated from the source.
Collaborators whose code lives in this repository but outside the provided
sources (`RenderModel`, `Matrix`, the scene-graph walker `eachRenderable`,
`material.render`, `Point.round`) are modelled from the specification; each
such definition carries a doc comment saying so.

Object identity matters to the claims (cache slots are reused, the output may
alias one record twice), so the stateful parts are embedded with an explicit
heap: render models live in a list indexed by allocation address, the cache
maps surface ids to addresses, and `render` threads this state.
-/

namespace Seen

/-- Rational 3D point. Modelled from the spec: the concrete point algebra is an
external collaborator; coordinates are exact rationals (no floating point). -/
structure P3 where
  x : ℚ
  y : ℚ
  z : ℚ
deriving DecidableEq

/-- Rational 4x4 matrix, row-major. Modelled from the spec: the concrete matrix
algebra is an external collaborator supporting copy, multiply (composition) and
application to points with homogeneous divide. -/
structure M4 where
  a00 : ℚ
  a01 : ℚ
  a02 : ℚ
  a03 : ℚ
  a10 : ℚ
  a11 : ℚ
  a12 : ℚ
  a13 : ℚ
  a20 : ℚ
  a21 : ℚ
  a22 : ℚ
  a23 : ℚ
  a30 : ℚ
  a31 : ℚ
  a32 : ℚ
  a33 : ℚ
deriving DecidableEq

/-- Identity matrix. -/
def idM4 : M4 :=
  ⟨1, 0, 0, 0, 0, 1, 0, 0, 0, 0, 1, 0, 0, 0, 0, 1⟩

/-- Matrix composition, `a * b` (left-associative in the source's
`m.multiply(b)` order). -/
def matMul (a b : M4) : M4 where
  a00 := a.a00 * b.a00 + a.a01 * b.a10 + a.a02 * b.a20 + a.a03 * b.a30
  a01 := a.a00 * b.a01 + a.a01 * b.a11 + a.a02 * b.a21 + a.a03 * b.a31
  a02 := a.a00 * b.a02 + a.a01 * b.a12 + a.a02 * b.a22 + a.a03 * b.a32
  a03 := a.a00 * b.a03 + a.a01 * b.a13 + a.a02 * b.a23 + a.a03 * b.a33
  a10 := a.a10 * b.a00 + a.a11 * b.a10 + a.a12 * b.a20 + a.a13 * b.a30
  a11 := a.a10 * b.a01 + a.a11 * b.a11 + a.a12 * b.a21 + a.a13 * b.a31
  a12 := a.a10 * b.a02 + a.a11 * b.a12 + a.a12 * b.a22 + a.a13 * b.a32
  a13 := a.a10 * b.a03 + a.a11 * b.a13 + a.a12 * b.a23 + a.a13 * b.a33
  a20 := a.a20 * b.a00 + a.a21 * b.a10 + a.a22 * b.a20 + a.a23 * b.a30
  a21 := a.a20 * b.a01 + a.a21 * b.a11 + a.a22 * b.a21 + a.a23 * b.a31
  a22 := a.a20 * b.a02 + a.a21 * b.a12 + a.a22 * b.a22 + a.a23 * b.a32
  a23 := a.a20 * b.a03 + a.a21 * b.a13 + a.a22 * b.a23 + a.a23 * b.a33
  a30 := a.a30 * b.a00 + a.a31 * b.a10 + a.a32 * b.a20 + a.a33 * b.a30
  a31 := a.a30 * b.a01 + a.a31 * b.a11 + a.a32 * b.a21 + a.a33 * b.a31
  a32 := a.a30 * b.a02 + a.a31 * b.a12 + a.a32 * b.a22 + a.a33 * b.a32
  a33 := a.a30 * b.a03 + a.a31 * b.a13 + a.a32 * b.a23 + a.a33 * b.a33

/-- Application of a matrix to a point with homogeneous divide. Modelled from
the spec: degenerate geometry (zero homogeneous weight) is passed through
without special-casing (rational division by zero yields zero). -/
def applyM (m : M4) (p : P3) : P3 :=
  let xh := m.a00 * p.x + m.a01 * p.y + m.a02 * p.z + m.a03
  let yh := m.a10 * p.x + m.a11 * p.y + m.a12 * p.z + m.a13
  let zh := m.a20 * p.x + m.a21 * p.y + m.a22 * p.z + m.a23
  let wh := m.a30 * p.x + m.a31 * p.y + m.a32 * p.z + m.a33
  ⟨xh / wh, yh / wh, zh / wh⟩

/-- A light in the scene graph (opaque to the pipeline; consumed by shading). -/
structure Light where
  lightId : Nat
deriving DecidableEq

/-- A material (opaque to the pipeline; its `render` is delegated to). -/
structure Material where
  materialId : Nat
deriving DecidableEq

/-- The scene's shading model (e.g. Phong); opaque to the pipeline. -/
structure Shader where
  shaderId : Nat
deriving DecidableEq

/-- World-space (transformed) geometry of a surface: transformed points and
transformed normal. -/
structure Geom where
  points : List P3
  normal : P3
deriving DecidableEq

/-- Projected (screen-space) geometry of a surface: projected points, projected
normal, and the barycenter (centroid) of the projected points used as the depth
key for sorting. -/
structure ProjGeom where
  points : List P3
  normal : P3
  barycenter : P3
deriving DecidableEq

/-- Result of `material.render(lights, shader, transformedGeometry)`. Modelled
from the spec: the result is opaque to the pipeline, so it is embedded as the
record of the inputs it was computed from. -/
structure Shaded where
  material : Material
  lights : List Light
  shader : Shader
  geometry : Geom
deriving DecidableEq

/-- Modelled from the spec: `material.render(lights, shader, transformed)`,
delegated entirely to the material/shader collaborators. -/
def mkShaded (m : Material) (lights : List Light) (shader : Shader) (g : Geom) : Shaded :=
  ⟨m, lights, shader, g⟩

/-- A single drawable polygon/patch with its own fill/stroke materials and cull
flag, identified by a unique id (the cache key). -/
structure Surface where
  id : Nat
  points : List P3
  normal : P3
  cullBackfaces : Bool
  fillMaterial : Option Material
  strokeMaterial : Option Material
deriving DecidableEq

/-- A shape: a collection of surfaces (the shape visitor loops over them). -/
structure Shape where
  surfaces : List Surface
deriving DecidableEq

/-- One invocation of the shape visitor by the scene-graph walker: the shape,
the active lights in scope, and the accumulated world transform. Modelled from
the spec: `eachRenderable` is an external collaborator, so the graph is
embedded by its observable behavior, the sequence of visitor invocations. -/
structure ShapeVisit where
  shape : Shape
  lights : List Light
  transform : M4
deriving DecidableEq

/-- The transformed representation of a light for the current frame, produced
by the light visitor. Recomputed every frame; not cached. -/
structure LightRenderModel where
  light : Light
  transform : M4
deriving DecidableEq

/-- The scene-graph root model, embedded as the sequence of shape-visitor
invocations its traversal produces. Modelled from the spec: the tree structure
itself is an external collaborator. -/
structure SceneModel where
  shapeVisits : List ShapeVisit
deriving DecidableEq

/-- One surface-level visit: the body of the `for surface of shape.surfaces`
loop receives the surface together with the visit's lights and transform. -/
structure SVisit where
  surface : Surface
  lights : List Light
  transform : M4
deriving DecidableEq

/-- Flattening of one shape visit into its surface visits, in loop order. -/
def svisitsOfShape (sv : ShapeVisit) : List SVisit :=
  sv.shape.surfaces.map (fun su => ⟨su, sv.lights, sv.transform⟩)

/-- The camera: a world transform `m` and a projection matrix. -/
structure Camera where
  m : M4
  projection : M4
deriving DecidableEq

/-- The viewport: prescale and postscale matrices. -/
structure Viewport where
  prescale : M4
  postscale : M4
deriving DecidableEq

/-- The per-view scene configuration (the immutable part of `Scene`; the
mutable render-model cache is threaded separately as `RState`). -/
structure Scene where
  model : SceneModel
  camera : Camera
  viewport : Viewport
  shader : Shader
  cullBackfaces : Bool
  fractionalPoints : Bool
  cache : Bool
deriving DecidableEq

/-- World-space geometry of a surface under a world transform. Modelled from
the spec: apply `worldTransform` to surface-local points and normal. -/
def transformedOf (surf : Surface) (t : M4) : Geom :=
  ⟨surf.points.map (applyM t), applyM t surf.normal⟩

/-- Clip-space points of a surface: transformed points taken through the
composed projection matrix (homogeneous divide included). -/
def clipPointsOf (surf : Surface) (t pj : M4) : List P3 :=
  (transformedOf surf t).points.map (applyM pj)

/-- Centroid of a list of points (the "barycenter"); the empty list yields the
degenerate zero point (rational division by zero). -/
def centroid (ps : List P3) : P3 :=
  let n : ℚ := ps.length
  ⟨(ps.map P3.x).sum / n, (ps.map P3.y).sum / n, (ps.map P3.z).sum / n⟩

/-- Projected (screen-space) geometry. Modelled from the spec: apply
`projectionMatrix` then `viewportMatrix` with homogeneous divide, plus the
centroid of the projected points. -/
def projectedOf (surf : Surface) (t pj vp : M4) : ProjGeom :=
  let pts := (clipPointsOf surf t pj).map (applyM vp)
  ⟨pts, applyM vp (applyM pj (transformedOf surf t).normal), centroid pts⟩

/-- Frustum-containment test. Modelled from the spec: containment of the
clip-space points in the canonical clip volume. -/
def inFrustrumOf (surf : Surface) (t pj : M4) : Bool :=
  (clipPointsOf surf t pj).all
    (fun p => decide (-1 ≤ p.x ∧ p.x ≤ 1 ∧ -1 ≤ p.y ∧ p.y ≤ 1 ∧ -1 ≤ p.z ∧ p.z ≤ 1))

/-- The per-surface-per-frame render record. Modelled from the spec:
`RenderModel`'s code is in this repository but outside the provided sources;
its attributes are the surface reference, the matrices used, derived
transformed and projected geometry, the frustum-containment flag, and optional
fill/stroke shading results. -/
structure RenderModel where
  surface : Surface
  transform : M4
  projection : M4
  viewport : M4
  transformed : Geom
  projected : ProjGeom
  inFrustrum : Bool
  fill : Option Shaded
  stroke : Option Shaded
deriving DecidableEq

/-- Modelled from the spec: `RenderModel.update` mutates the record's stored
transform/projection/viewport and recomputes transformed/projected geometry in
place (from the record's own surface); fill/stroke are left to be overwritten
later in the frame. -/
def updateRM (r : RenderModel) (t pj vp : M4) : RenderModel :=
  { r with
    transform := t
    projection := pj
    viewport := vp
    transformed := transformedOf r.surface t
    projected := projectedOf r.surface t pj vp
    inFrustrum := inFrustrumOf r.surface t pj }

/-- Modelled from the spec: the `RenderModel` constructor computes the same
derived geometry and starts with absent fill/stroke results. -/
def newRM (surf : Surface) (t pj vp : M4) : RenderModel where
  surface := surf
  transform := t
  projection := pj
  viewport := vp
  transformed := transformedOf surf t
  projected := projectedOf surf t pj vp
  inFrustrum := inFrustrumOf surf t pj
  fill := none
  stroke := none

/-- A blank record for a surface: identity matrices, empty geometry, absent
shading. Used as the pre-state a construction is equivalent to updating. -/
def blankFor (surf : Surface) : RenderModel where
  surface := surf
  transform := idM4
  projection := idM4
  viewport := idM4
  transformed := ⟨[], ⟨0, 0, 0⟩⟩
  projected := ⟨[], ⟨0, 0, 0⟩, ⟨0, 0, 0⟩⟩
  inFrustrum := false
  fill := none
  stroke := none

/-- Default record used only as the out-of-bounds fallback of heap reads. -/
def blankModel : RenderModel :=
  blankFor ⟨0, [], ⟨0, 0, 0⟩, true, none, none⟩

/-- Rounding of a point to the nearest integer coordinates. Modelled from the
spec: `Point.round` quantizes the coordinates in place (halves round up, as
they do for the host language's rounding). -/
def roundPoint (p : P3) : P3 :=
  ⟨(round p.x : ℤ), (round p.y : ℤ), (round p.z : ℤ)⟩

/-- In-place rounding of a render model's projected points (the loop
`for p of renderModel.projected.points: p.round()`). -/
def roundProjected (r : RenderModel) : RenderModel :=
  { r with projected := { r.projected with points := r.projected.points.map roundPoint } }

/-!
The mutable state of a `Scene` across `render()` calls: an allocation heap of
`RenderModel` records (addresses model object identity) and the render-model
cache `_renderModelCache`, an association of surface ids to heap addresses.
-/

/-- Heap of render models plus the render-model cache (surface id to heap
address). -/
structure RState where
  cache : List (Nat × Nat)
  heap : List RenderModel
deriving DecidableEq

/-- Lookup of a surface id in the cache association list. -/
def cLookup : List (Nat × Nat) → Nat → Option Nat
  | [], _ => none
  | (k, a) :: rest, i => if k = i then some a else cLookup rest i

/-- The composed projection matrix of a frame:
`camera.m.copy().multiply(viewport.prescale).multiply(camera.projection)`. -/
def sceneProjection (s : Scene) : M4 :=
  matMul (matMul s.camera.m s.viewport.prescale) s.camera.projection

/-- The viewport matrix of a frame: `viewport.postscale`. -/
def sceneViewportM (s : Scene) : M4 :=
  s.viewport.postscale

/-- `Scene._renderSurface`: with caching disabled, construct a fresh record;
otherwise get the cached record for the surface's id (updating it in place) or
construct and cache a new one. Returns the state and the record's address. -/
def renderSurfaceStep (s : Scene) (σ : RState) (surf : Surface) (t pj vp : M4) :
    RState × Nat :=
  if s.cache = false then
    (⟨σ.cache, σ.heap ++ [newRM surf t pj vp]⟩, σ.heap.length)
  else
    match cLookup σ.cache surf.id with
    | none =>
        (⟨(surf.id, σ.heap.length) :: σ.cache, σ.heap ++ [newRM surf t pj vp]⟩,
          σ.heap.length)
    | some a =>
        (⟨σ.cache, σ.heap.set a (updateRM (σ.heap.getD a blankModel) t pj vp)⟩, a)

/-- The visibility test of `render()`:
`(!cullBackfaces || !surface.cullBackfaces || projected.normal.z < 0) && inFrustrum`. -/
def visibleModel (s : Scene) (surf : Surface) (r : RenderModel) : Bool :=
  ((!s.cullBackfaces) || (!surf.cullBackfaces) || decide (r.projected.normal.z < 0)) &&
    r.inFrustrum

/-- Fill and stroke shading: each material, when present, is rendered with the
visit's lights, the scene's shader and the record's transformed geometry. -/
def shadeModel (s : Scene) (v : SVisit) (r : RenderModel) : RenderModel :=
  { r with
    fill := v.surface.fillMaterial.map (fun m => mkShaded m v.lights s.shader r.transformed)
    stroke := v.surface.strokeMaterial.map (fun m => mkShaded m v.lights s.shader r.transformed) }

/-- Point quantization: `if (this.fractionalPoints !== true)` round the
projected points in place. -/
def quantizeModel (s : Scene) (r : RenderModel) : RenderModel :=
  if s.fractionalPoints = true then r else roundProjected r

/-- The body of the surface loop of `render()`: build or update the surface's
render model, test visibility, and if visible shade, quantize, and append the
record to the output. Returns the new state and the (zero- or one-element)
list of appended addresses. -/
def processVisit (s : Scene) (pj vp : M4) (σ : RState) (v : SVisit) :
    RState × List Nat :=
  let step := renderSurfaceStep s σ v.surface v.transform pj vp
  let σ1 := step.1
  let a := step.2
  let r := σ1.heap.getD a blankModel
  if visibleModel s v.surface r then
    (⟨σ1.cache, σ1.heap.set a (quantizeModel s (shadeModel s v r))⟩, [a])
  else
    (σ1, [])

/-- Sequential processing of surface visits, accumulating output addresses. -/
def runVisits (s : Scene) (pj vp : M4) : List SVisit → RState → RState × List Nat
  | [], σ => (σ, [])
  | v :: vs, σ =>
      let first := processVisit s pj vp σ v
      let rest := runVisits s pj vp vs first.1
      (rest.1, first.2 ++ rest.2)

/-- Sequential processing of the shape visits produced by the walker, each one
looping over the shape's surfaces. -/
def runShapeVisits (s : Scene) (pj vp : M4) : List ShapeVisit → RState → RState × List Nat
  | [], σ => (σ, [])
  | sv :: svs, σ =>
      let first := runVisits s pj vp (svisitsOfShape sv) σ
      let rest := runShapeVisits s pj vp svs first.1
      (rest.1, first.2 ++ rest.2)

/-- Depth key of a heap address: the projected barycenter's z-coordinate of the
record it refers to. -/
def keyOf (heap : List RenderModel) (a : Nat) : ℚ :=
  (heap.getD a blankModel).projected.barycenter.z

/-- Insertion into a descending-sorted list: walk past strictly greater keys,
so an element inserted among equals lands first (stability). -/
def insertDesc (key : Nat → ℚ) (x : Nat) : List Nat → List Nat
  | [] => [x]
  | y :: ys => if key x < key y then y :: insertDesc key x ys else x :: y :: ys

/-- Stable sort by descending key, the embedding of
`renderModels.sort((a, b) => b.projected.barycenter.z - a.projected.barycenter.z)`
(the host sort is stable). -/
def sortDesc (key : Nat → ℚ) : List Nat → List Nat
  | [] => []
  | x :: xs => insertDesc key x (sortDesc key xs)

/-- Depth sort of output addresses over a given heap. -/
def sortAddrs (heap : List RenderModel) (l : List Nat) : List Nat :=
  sortDesc (keyOf heap) l

/-- `Scene.render()`: compose the frame's projection and viewport matrices,
walk the scene graph processing every surface of every shape visit, then sort
the surviving render models by descending projected barycenter depth. Returns
the new state and the sorted output addresses. -/
def render (s : Scene) (σ : RState) : RState × List Nat :=
  let pj := sceneProjection s
  let vp := sceneViewportM s
  let walk := runShapeVisits s pj vp s.model.shapeVisits σ
  (walk.1, sortAddrs walk.1.heap walk.2)

/-- The surface-level visit sequence of a scene (shape visits flattened in
traversal order). -/
def svisitsScene (s : Scene) : List SVisit :=
  s.model.shapeVisits.flatMap svisitsOfShape

/-- State after the walk of one `render()` call, before sorting. -/
def finalState (s : Scene) (σ : RState) : RState :=
  (runVisits s (sceneProjection s) (sceneViewportM s) (svisitsScene s) σ).1

/-- Output addresses of one `render()` call before the depth sort. -/
def presortAddrs (s : Scene) (σ : RState) : List Nat :=
  (runVisits s (sceneProjection s) (sceneViewportM s) (svisitsScene s) σ).2

/-- Render models of the sorted output (heap contents at the output
addresses). -/
def outputModels (s : Scene) (σ : RState) : List RenderModel :=
  (render s σ).2.map (fun a => (render s σ).1.heap.getD a blankModel)

/-- Visits of a given surface id within a visit sequence, in order. -/
def argsOfId (i : Nat) (vs : List SVisit) : List SVisit :=
  vs.filter (fun v => decide (v.surface.id = i))

/-- Per-record effect of one visit on a surface's render model content: update
the stored matrices and derived geometry in place, then, if the visibility
test passes, shade and quantize. This is the content transformation that
`processVisit` applies to the visit's cache slot. -/
def stepContent (s : Scene) (pj vp : M4) (c : RenderModel) (v : SVisit) : RenderModel :=
  let r := updateRM c v.transform pj vp
  if visibleModel s v.surface r then quantizeModel s (shadeModel s v r) else r

/-- State-free visibility of a visit: the test `render()` applies to geometry
freshly recomputed from the visit's surface and transform. -/
def visitVisible (s : Scene) (pj vp : M4) (v : SVisit) : Bool :=
  visibleModel s v.surface (newRM v.surface v.transform pj vp)

/-- The spec's visibility rule, written in the spec's order: a render model is
visible iff it is inside the frustum AND (backface culling is disabled at the
scene level OR disabled at the surface level OR the projected normal's depth
component is negative). -/
def visibleRuleSpec (s : Scene) (surf : Surface) (r : RenderModel) : Bool :=
  r.inFrustrum &&
    ((!s.cullBackfaces) || (!surf.cullBackfaces) || decide (r.projected.normal.z < 0))

/-- Well-formedness of the threaded state: cached addresses are in bounds and
no two surface ids share a cache slot. -/
def WFState (σ : RState) : Prop :=
  (∀ i a, cLookup σ.cache i = some a → a < σ.heap.length) ∧
  (∀ i j a, cLookup σ.cache i = some a → cLookup σ.cache j = some a → i = j)

/-- The cached record of a surface id stores that surface: whenever a visit's
id hits a cache slot, the record in the slot was built from the same surface.
Holds for the empty cache and is preserved by rendering id-coherent scenes. -/
def Coherent (vs : List SVisit) (σ : RState) : Prop :=
  ∀ i a, cLookup σ.cache i = some a → ∀ v ∈ vs, v.surface.id = i →
    (σ.heap.getD a blankModel).surface = v.surface

/-- Surface ids are unique keys: visits with equal surface ids carry the same
surface (the spec calls the id "the surface's unique id"). -/
def IdCoherent (vs : List SVisit) : Prop :=
  ∀ v ∈ vs, ∀ v' ∈ vs, v.surface.id = v'.surface.id → v.surface = v'.surface

/-- Characterization of a cached render walk from state `σ` to state `σ'` with
output `out`: well-formedness is preserved, the cache grows monotonically and
covers exactly the previously cached or visited ids, each cached slot holds
the fold of `stepContent` over the id's visits (starting from the previous
content on a pre-existing slot, or from a blank record on a fresh one), and
the output lists, in visit order, the slot of every visit passing the
visibility test. -/
def RunChar (s : Scene) (pj vp : M4) (vs : List SVisit) (σ σ' : RState)
    (out : List Nat) : Prop :=
  WFState σ' ∧
  σ.heap.length ≤ σ'.heap.length ∧
  (∀ i a, cLookup σ.cache i = some a → cLookup σ'.cache i = some a) ∧
  (∀ i, cLookup σ.cache i = none → argsOfId i vs = [] → cLookup σ'.cache i = none) ∧
  (∀ i, argsOfId i vs ≠ [] → ∃ a, cLookup σ'.cache i = some a) ∧
  (∀ i a, cLookup σ'.cache i = some a →
    (cLookup σ.cache i = some a ∧
      σ'.heap.getD a blankModel =
        List.foldl (stepContent s pj vp) (σ.heap.getD a blankModel) (argsOfId i vs)) ∨
    (cLookup σ.cache i = none ∧ σ.heap.length ≤ a ∧
      ∃ v0 vrest, argsOfId i vs = v0 :: vrest ∧
        σ'.heap.getD a blankModel =
          List.foldl (stepContent s pj vp) (blankFor v0.surface) (v0 :: vrest))) ∧
  (out = vs.filterMap
    (fun v => if visitVisible s pj vp v = true then cLookup σ'.cache v.surface.id else none)) ∧
  Coherent vs σ'

/-!
The clone-then-mutate matrix discipline of the Transform Compositor: `Matrix`
objects are mutable, `copy()` allocates a clone, and `multiply` composes into
the receiver in place. Embedded as a store of matrices indexed by address.
-/

/-- A store of live matrix objects, indexed by allocation address. -/
structure MatStore where
  mats : List M4
deriving DecidableEq

/-- `m.copy()`: allocate a fresh matrix equal to the one at `a`. -/
def mcopy (st : MatStore) (a : Nat) : MatStore × Nat :=
  (⟨st.mats ++ [st.mats.getD a idM4]⟩, st.mats.length)

/-- `m.multiply(b)`: compose in place into the receiver at address `a`. -/
def mmulInPlace (st : MatStore) (a b : Nat) : MatStore :=
  ⟨st.mats.set a (matMul (st.mats.getD a idM4) (st.mats.getD b idM4))⟩

/-- The Transform Compositor on matrix objects:
`camera.m.copy().multiply(viewport.prescale).multiply(camera.projection)`,
given the addresses of `camera.m`, `viewport.prescale` and
`camera.projection`. Returns the store and the address of the composed
projection. -/
def composeProjectionStore (st : MatStore) (cam pre proj : Nat) : MatStore × Nat :=
  let c := mcopy st cam
  let st2 := mmulInPlace c.1 c.2 pre
  let st3 := mmulInPlace st2 c.2 proj
  (st3, c.2)

/-!
Concrete scenes and stores used to exercise the pipeline on closed inputs.
-/

/-- The empty render state: no cache entries, no live records. -/
def rstateEmpty : RState := ⟨[], []⟩

/-- Example material for concrete scenes. -/
def exMaterial : Material := ⟨7⟩

/-- Example light for concrete scenes. -/
def exLight : Light := ⟨3⟩

/-- Example shader for concrete scenes. -/
def exShader : Shader := ⟨9⟩

/-- Example surface: a single point with fractional x-coordinate `1/2`, a
viewer-facing normal, a fill material and no stroke material. -/
def exSurf : Surface := ⟨1, [⟨(1 : ℚ)/2, 0, 0⟩], ⟨0, 0, -1⟩, true, some exMaterial, none⟩

/-- Example shape holding the example surface. -/
def exShape : Shape := ⟨[exSurf]⟩

/-- Translation by +2 along x. -/
def exMoveX2 : M4 := ⟨1, 0, 0, 2, 0, 1, 0, 0, 0, 0, 1, 0, 0, 0, 0, 1⟩

/-- Example scene: one shape visit of the example surface under the identity
transform; identity camera and viewport, backface culling off, point rounding
on, caching on. -/
def exSceneSingle : Scene where
  model := ⟨[⟨exShape, [exLight], idM4⟩]⟩
  camera := ⟨idM4, idM4⟩
  viewport := ⟨idM4, idM4⟩
  shader := exShader
  cullBackfaces := false
  fractionalPoints := false
  cache := true

/-- Scene visiting the same surface twice: first inside the frustum, then
translated outside it (the second update leaves unrounded stale geometry in
the shared cache slot). -/
def exSceneDup : Scene :=
  { exSceneSingle with
    model := ⟨[⟨exShape, [exLight], idM4⟩, ⟨exShape, [exLight], exMoveX2⟩]⟩ }

/-- Scene visiting the same surface twice, both visits visible (the output
aliases one record twice). -/
def exSceneAlias : Scene :=
  { exSceneSingle with
    model := ⟨[⟨exShape, [exLight], idM4⟩, ⟨exShape, [exLight], idM4⟩]⟩ }

/-- Example surface-level visit of the example surface. -/
def exVisit : SVisit := ⟨exSurf, [exLight], idM4⟩

/-- Example visit of the same surface translated outside the frustum. -/
def exVisitMoved : SVisit := ⟨exSurf, [exLight], exMoveX2⟩

/-- Distinct example matrices for the compositor store. -/
def exMA : M4 := ⟨2, 0, 0, 0, 0, 1, 0, 0, 0, 0, 1, 0, 0, 0, 0, 1⟩

/-- Distinct example matrix (translation). -/
def exMB : M4 := ⟨1, 0, 0, 5, 0, 1, 0, 0, 0, 0, 1, 0, 0, 0, 0, 1⟩

/-- Distinct example matrix (scale). -/
def exMC : M4 := ⟨1, 0, 0, 0, 0, 3, 0, 0, 0, 0, 1, 0, 0, 0, 0, 1⟩

/-- Distinct example matrix (translation along y). -/
def exMD : M4 := ⟨1, 0, 0, 0, 0, 1, 0, 7, 0, 0, 1, 0, 0, 0, 0, 1⟩

/-- Example store holding camera matrix, prescale, camera projection and
postscale at addresses 0..3. -/
def exStore : MatStore := ⟨[exMA, exMB, exMC, exMD]⟩

/-- Example scene whose camera/viewport matrices are those of `exStore`. -/
def exSceneMats : Scene :=
  { exSceneSingle with camera := ⟨exMA, exMC⟩, viewport := ⟨exMB, exMD⟩ }

/-!
Helper lemmas about heap reads and writes.
-/

theorem getD_set_self {α : Type} (l : List α) (a : Nat) (x d : α)
    (h : a < l.length) : (l.set a x).getD a d = x := by
  simp [List.getD_eq_getElem?_getD, List.getElem?_set_self, h]

theorem getD_set_ne {α : Type} (l : List α) (a b : Nat) (x d : α)
    (h : a ≠ b) : (l.set a x).getD b d = l.getD b d := by
  simp [List.getD_eq_getElem?_getD, List.getElem?_set_ne, h]

theorem getD_append_left {α : Type} (l1 l2 : List α) (a : Nat) (d : α)
    (h : a < l1.length) : (l1 ++ l2).getD a d = l1.getD a d := by
  simp [List.getD_eq_getElem?_getD, List.getElem?_append_left, h]

theorem getD_append_self {α : Type} (l : List α) (x d : α) :
    (l ++ [x]).getD l.length d = x := by
  simp [List.getD_eq_getElem?_getD]

theorem set_append_self {α : Type} (l : List α) (x y : α) :
    (l ++ [x]).set l.length y = l ++ [y] := by
  simp [List.set_append_right]

/-!
The stable descending insertion sort: permutation, sortedness, stability, and
congruence in the key function.
-/

theorem insertDesc_perm (key : Nat → ℚ) (x : Nat) (l : List Nat) :
    (insertDesc key x l).Perm (x :: l) := by
  induction l with
  | nil => simp [insertDesc]
  | cons y ys ih =>
      by_cases h : key x < key y
      · simp only [insertDesc, if_pos h]
        exact ((ih.cons y).trans (List.Perm.swap x y ys))
      · simp [insertDesc, if_neg h]

theorem sortDesc_perm (key : Nat → ℚ) (l : List Nat) :
    (sortDesc key l).Perm l := by
  induction l with
  | nil => simp [sortDesc]
  | cons x xs ih =>
      exact (insertDesc_perm key x (sortDesc key xs)).trans (ih.cons x)

theorem mem_insertDesc (key : Nat → ℚ) (x y : Nat) (l : List Nat) :
    y ∈ insertDesc key x l ↔ y = x ∨ y ∈ l := by
  constructor
  · intro h
    have := (insertDesc_perm key x l).mem_iff.mp h
    simpa using this
  · intro h
    apply (insertDesc_perm key x l).mem_iff.mpr
    simpa using h

theorem insertDesc_sorted (key : Nat → ℚ) (x : Nat) (l : List Nat)
    (h : l.Pairwise (fun a b => key b ≤ key a)) :
    (insertDesc key x l).Pairwise (fun a b => key b ≤ key a) := by
  induction l with
  | nil => simp [insertDesc]
  | cons y ys ih =>
      rcases h with _ | ⟨hy, hys⟩
      by_cases hlt : key x < key y
      · simp only [insertDesc, if_pos hlt]
        refine List.Pairwise.cons ?_ (ih hys)
        intro b hb
        rcases (mem_insertDesc key x b ys).mp hb with rfl | hbys
        · exact le_of_lt hlt
        · exact hy b hbys
      · simp only [insertDesc, if_neg hlt]
        refine List.Pairwise.cons ?_ (List.Pairwise.cons hy hys)
        intro b hb
        rcases List.mem_cons.mp hb with rfl | hbys
        · exact le_of_not_lt hlt
        · exact le_trans (hy b hbys) (le_of_not_lt hlt)

theorem sortDesc_sorted (key : Nat → ℚ) (l : List Nat) :
    (sortDesc key l).Pairwise (fun a b => key b ≤ key a) := by
  induction l with
  | nil => simp [sortDesc]
  | cons x xs ih => exact insertDesc_sorted key x (sortDesc key xs) ih

theorem filter_insertDesc_of_ne (key : Nat → ℚ) (x : Nat) (l : List Nat) (c : ℚ)
    (hx : key x ≠ c) :
    (insertDesc key x l).filter (fun a => key a = c) = l.filter (fun a => key a = c) := by
  induction l with
  | nil => simp [insertDesc, List.filter_cons, hx]
  | cons y ys ih =>
      by_cases hlt : key x < key y
      · simp only [insertDesc, if_pos hlt]
        by_cases hy : key y = c
        · simp [List.filter_cons, hy, ih]
        · simp [List.filter_cons, hy, ih]
      · simp only [insertDesc, if_neg hlt]
        simp [List.filter_cons, hx]

theorem filter_insertDesc_of_eq (key : Nat → ℚ) (x : Nat) (l : List Nat) (c : ℚ)
    (hx : key x = c) (hl : l.Pairwise (fun a b => key b ≤ key a)) :
    (insertDesc key x l).filter (fun a => key a = c) =
      x :: l.filter (fun a => key a = c) := by
  induction l with
  | nil => simp [insertDesc, List.filter_cons, hx]
  | cons y ys ih =>
      rcases hl with _ | ⟨hy, hys⟩
      by_cases hlt : key x < key y
      · have hyne : key y ≠ c := by
          intro hyc
          rw [hx] at hlt
          rw [hyc] at hlt
          exact lt_irrefl c hlt
        simp only [insertDesc, if_pos hlt]
        simp [List.filter_cons, hyne, ih hys]
      · simp only [insertDesc, if_neg hlt]
        simp [List.filter_cons, hx]

theorem sortDesc_stable (key : Nat → ℚ) (l : List Nat) (c : ℚ) :
    (sortDesc key l).filter (fun a => key a = c) = l.filter (fun a => key a = c) := by
  induction l with
  | nil => simp [sortDesc]
  | cons x xs ih =>
      by_cases hx : key x = c
      · rw [show sortDesc key (x :: xs) = insertDesc key x (sortDesc key xs) from rfl,
          filter_insertDesc_of_eq key x (sortDesc key xs) c hx (sortDesc_sorted key xs), ih]
        simp [List.filter_cons, hx]
      · rw [show sortDesc key (x :: xs) = insertDesc key x (sortDesc key xs) from rfl,
          filter_insertDesc_of_ne key x (sortDesc key xs) c hx, ih]
        simp [List.filter_cons, hx]

theorem insertDesc_congr (key1 key2 : Nat → ℚ) (x : Nat) (l : List Nat)
    (hx : key1 x = key2 x) (hl : ∀ a ∈ l, key1 a = key2 a) :
    insertDesc key1 x l = insertDesc key2 x l := by
  induction l with
  | nil => rfl
  | cons y ys ih =>
      have hy : key1 y = key2 y := hl y (by simp)
      have hys : ∀ a ∈ ys, key1 a = key2 a := fun a ha => hl a (by simp [ha])
      simp only [insertDesc, hx, hy, ih hys]

theorem sortDesc_congr (key1 key2 : Nat → ℚ) (l : List Nat)
    (hl : ∀ a ∈ l, key1 a = key2 a) :
    sortDesc key1 l = sortDesc key2 l := by
  induction l with
  | nil => rfl
  | cons x xs ih =>
      have hxs : ∀ a ∈ xs, key1 a = key2 a := fun a ha => hl a (by simp [ha])
      have hx : key1 x = key2 x := hl x (by simp)
      simp only [sortDesc, ih hxs]
      exact insertDesc_congr key1 key2 x (sortDesc key2 xs) hx
        (fun a ha => hxs a ((sortDesc_perm key2 xs).mem_iff.mp ha))

/-!
Step-level lemmas: constructing a record is updating a blank one, visibility
only depends on the stored surface and the visit, and `processVisit` acts on
the visit's slot by `stepContent`.
-/

theorem newRM_eq_updateRM_blank (surf : Surface) (t pj vp : M4) :
    newRM surf t pj vp = updateRM (blankFor surf) t pj vp := rfl

theorem visibleModel_updateRM (s : Scene) (surf : Surface) (c : RenderModel)
    (t pj vp : M4) (h : c.surface = surf) :
    visibleModel s surf (updateRM c t pj vp) = visibleModel s surf (newRM surf t pj vp) := by
  simp only [visibleModel, updateRM, newRM, h]

theorem updateRM_surface (c : RenderModel) (t pj vp : M4) :
    (updateRM c t pj vp).surface = c.surface := rfl

theorem shadeModel_surface (s : Scene) (v : SVisit) (r : RenderModel) :
    (shadeModel s v r).surface = r.surface := rfl

theorem quantizeModel_surface (s : Scene) (r : RenderModel) :
    (quantizeModel s r).surface = r.surface := by
  unfold quantizeModel
  by_cases h : s.fractionalPoints = true
  · rw [if_pos h]
  · rw [if_neg h]
    rfl

theorem stepContent_surface (s : Scene) (pj vp : M4) (c : RenderModel) (v : SVisit) :
    (stepContent s pj vp c v).surface = c.surface := by
  unfold stepContent
  by_cases h : visibleModel s v.surface (updateRM c v.transform pj vp) = true
  · simp only [if_pos h, quantizeModel_surface, shadeModel_surface, updateRM_surface]
  · simp only [if_neg h, updateRM_surface]

theorem foldl_stepContent_surface (s : Scene) (pj vp : M4) (vs : List SVisit)
    (c : RenderModel) :
    (List.foldl (stepContent s pj vp) c vs).surface = c.surface := by
  induction vs generalizing c with
  | nil => rfl
  | cons v vs ih => rw [List.foldl_cons, ih, stepContent_surface]

theorem processVisit_hit (s : Scene) (pj vp : M4) (σ : RState) (v : SVisit) (a : Nat)
    (hc : s.cache = true) (hl : cLookup σ.cache v.surface.id = some a)
    (hb : a < σ.heap.length)
    (hs : (σ.heap.getD a blankModel).surface = v.surface) :
    processVisit s pj vp σ v =
      (⟨σ.cache, σ.heap.set a (stepContent s pj vp (σ.heap.getD a blankModel) v)⟩,
        if visitVisible s pj vp v then [a] else []) := by
  have hstep : renderSurfaceStep s σ v.surface v.transform pj vp =
      (⟨σ.cache, σ.heap.set a (updateRM (σ.heap.getD a blankModel) v.transform pj vp)⟩, a) := by
    simp [renderSurfaceStep, hc, hl]
  have hget : (σ.heap.set a (updateRM (σ.heap.getD a blankModel) v.transform pj vp)).getD a
      blankModel = updateRM (σ.heap.getD a blankModel) v.transform pj vp :=
    getD_set_self _ _ _ _ hb
  have hvis : visibleModel s v.surface
      (updateRM (σ.heap.getD a blankModel) v.transform pj vp) = visitVisible s pj vp v := by
    rw [visibleModel_updateRM s v.surface _ v.transform pj vp hs]
    rfl
  by_cases hv : visitVisible s pj vp v = true
  · simp only [processVisit, hstep, hget, hvis, hv, if_pos, if_true]
    rw [List.set_set]
    have : stepContent s pj vp (σ.heap.getD a blankModel) v =
        quantizeModel s (shadeModel s v
          (updateRM (σ.heap.getD a blankModel) v.transform pj vp)) := by
      simp only [stepContent]
      rw [hvis, hv, if_pos rfl]
    rw [this]
  · have hv' : visitVisible s pj vp v = false := by
      revert hv
      cases visitVisible s pj vp v <;> simp
    simp only [processVisit, hstep, hget, hvis, hv', if_neg, Bool.false_eq_true, if_false]
    have : stepContent s pj vp (σ.heap.getD a blankModel) v =
        updateRM (σ.heap.getD a blankModel) v.transform pj vp := by
      simp only [stepContent]
      rw [hvis, hv']
      simp
    rw [this]

theorem processVisit_miss (s : Scene) (pj vp : M4) (σ : RState) (v : SVisit)
    (hc : s.cache = true) (hl : cLookup σ.cache v.surface.id = none) :
    processVisit s pj vp σ v =
      (⟨(v.surface.id, σ.heap.length) :: σ.cache,
          σ.heap ++ [stepContent s pj vp (blankFor v.surface) v]⟩,
        if visitVisible s pj vp v then [σ.heap.length] else []) := by
  have hstep : renderSurfaceStep s σ v.surface v.transform pj vp =
      (⟨(v.surface.id, σ.heap.length) :: σ.cache,
          σ.heap ++ [newRM v.surface v.transform pj vp]⟩, σ.heap.length) := by
    simp [renderSurfaceStep, hc, hl]
  have hget : (σ.heap ++ [newRM v.surface v.transform pj vp]).getD σ.heap.length blankModel =
      newRM v.surface v.transform pj vp := getD_append_self _ _ _
  have hvis : visibleModel s v.surface (newRM v.surface v.transform pj vp) =
      visitVisible s pj vp v := rfl
  have hstepc : stepContent s pj vp (blankFor v.surface) v =
      (if visitVisible s pj vp v
        then quantizeModel s (shadeModel s v (newRM v.surface v.transform pj vp))
        else newRM v.surface v.transform pj vp) := by
    simp only [stepContent]
    rw [← newRM_eq_updateRM_blank, hvis]
  by_cases hv : visitVisible s pj vp v = true
  · simp only [processVisit, hstep, hget, hvis, hv, if_pos, if_true]
    rw [set_append_self, hstepc, if_pos hv]
  · have hv' : visitVisible s pj vp v = false := by
      revert hv
      cases visitVisible s pj vp v <;> simp
    simp only [processVisit, hstep, hget, hvis, hv', Bool.false_eq_true, if_false]
    rw [hstepc, hv']
    simp

theorem processVisit_nocache (s : Scene) (pj vp : M4) (σ : RState) (v : SVisit)
    (hc : s.cache = false) :
    processVisit s pj vp σ v =
      (⟨σ.cache, σ.heap ++ [stepContent s pj vp (blankFor v.surface) v]⟩,
        if visitVisible s pj vp v then [σ.heap.length] else []) := by
  have hstep : renderSurfaceStep s σ v.surface v.transform pj vp =
      (⟨σ.cache, σ.heap ++ [newRM v.surface v.transform pj vp]⟩, σ.heap.length) := by
    simp [renderSurfaceStep, hc]
  have hget : (σ.heap ++ [newRM v.surface v.transform pj vp]).getD σ.heap.length blankModel =
      newRM v.surface v.transform pj vp := getD_append_self _ _ _
  have hvis : visibleModel s v.surface (newRM v.surface v.transform pj vp) =
      visitVisible s pj vp v := rfl
  have hstepc : stepContent s pj vp (blankFor v.surface) v =
      (if visitVisible s pj vp v
        then quantizeModel s (shadeModel s v (newRM v.surface v.transform pj vp))
        else newRM v.surface v.transform pj vp) := by
    simp only [stepContent]
    rw [← newRM_eq_updateRM_blank, hvis]
  by_cases hv : visitVisible s pj vp v = true
  · simp only [processVisit, hstep, hget, hvis, hv, if_pos, if_true]
    rw [set_append_self, hstepc, if_pos hv]
  · have hv' : visitVisible s pj vp v = false := by
      revert hv
      cases visitVisible s pj vp v <;> simp
    simp only [processVisit, hstep, hget, hvis, hv', Bool.false_eq_true, if_false]
    rw [hstepc, hv']
    simp

theorem runVisits_nil (s : Scene) (pj vp : M4) (σ : RState) :
    runVisits s pj vp [] σ = (σ, []) := rfl

theorem runVisits_cons (s : Scene) (pj vp : M4) (v : SVisit) (vs : List SVisit) (σ : RState) :
    runVisits s pj vp (v :: vs) σ =
      ((runVisits s pj vp vs (processVisit s pj vp σ v).1).1,
        (processVisit s pj vp σ v).2 ++ (runVisits s pj vp vs (processVisit s pj vp σ v).1).2) :=
  rfl

theorem runVisits_append (s : Scene) (pj vp : M4) (l1 l2 : List SVisit) (σ : RState) :
    runVisits s pj vp (l1 ++ l2) σ =
      ((runVisits s pj vp l2 (runVisits s pj vp l1 σ).1).1,
        (runVisits s pj vp l1 σ).2 ++ (runVisits s pj vp l2 (runVisits s pj vp l1 σ).1).2) := by
  induction l1 generalizing σ with
  | nil => simp [runVisits_nil]
  | cons v vs ih =>
      rw [List.cons_append, runVisits_cons, ih, runVisits_cons]
      simp [List.append_assoc]

theorem runShapeVisits_eq_runVisits (s : Scene) (pj vp : M4) (svs : List ShapeVisit)
    (σ : RState) :
    runShapeVisits s pj vp svs σ = runVisits s pj vp (svs.flatMap svisitsOfShape) σ := by
  induction svs generalizing σ with
  | nil => rfl
  | cons sv svs ih =>
      rw [List.flatMap_cons, runVisits_append]
      show ((runShapeVisits s pj vp svs (runVisits s pj vp (svisitsOfShape sv) σ).1).1, _) = _
      rw [ih]

theorem render_eq (s : Scene) (σ : RState) :
    render s σ = (finalState s σ, sortAddrs (finalState s σ).heap (presortAddrs s σ)) := by
  simp only [render, finalState, presortAddrs, svisitsScene]
  rw [runShapeVisits_eq_runVisits]

/-!
Congruence and idempotence of the per-surface content fold: re-rendering a
surface from its previously rendered content reproduces that content.
-/

theorem updateRM_congr (c c' : RenderModel) (t pj vp : M4)
    (hsurf : c.surface = c'.surface) (hfill : c.fill = c'.fill)
    (hstroke : c.stroke = c'.stroke) :
    updateRM c t pj vp = updateRM c' t pj vp := by
  simp only [updateRM, hsurf, hfill, hstroke]

theorem visibleModel_updateRM_congr (s : Scene) (surf : Surface) (c c' : RenderModel)
    (t pj vp : M4) (hsurf : c.surface = c'.surface) :
    visibleModel s surf (updateRM c t pj vp) = visibleModel s surf (updateRM c' t pj vp) := by
  simp only [visibleModel, updateRM, hsurf]

theorem shadeModel_updateRM_congr (s : Scene) (v : SVisit) (c c' : RenderModel)
    (t pj vp : M4) (hsurf : c.surface = c'.surface) :
    shadeModel s v (updateRM c t pj vp) = shadeModel s v (updateRM c' t pj vp) := by
  simp only [shadeModel, updateRM, hsurf]

theorem stepContent_fill_of_invisible (s : Scene) (pj vp : M4) (c : RenderModel)
    (v : SVisit) (hs : v.surface = c.surface)
    (hv : visitVisible s pj vp v = false) :
    stepContent s pj vp c v = updateRM c v.transform pj vp := by
  have hvis : visibleModel s v.surface (updateRM c v.transform pj vp) =
      visitVisible s pj vp v :=
    visibleModel_updateRM s v.surface c v.transform pj vp hs.symm
  simp only [stepContent, hvis, hv]
  simp

theorem stepContent_of_visible (s : Scene) (pj vp : M4) (c : RenderModel)
    (v : SVisit) (hs : v.surface = c.surface)
    (hv : visitVisible s pj vp v = true) :
    stepContent s pj vp c v =
      quantizeModel s (shadeModel s v (updateRM c v.transform pj vp)) := by
  have hvis : visibleModel s v.surface (updateRM c v.transform pj vp) =
      visitVisible s pj vp v :=
    visibleModel_updateRM s v.surface c v.transform pj vp hs.symm
  simp only [stepContent, hvis, hv]
  simp

theorem foldl_stepContent_keeps_fill (s : Scene) (pj vp : M4) :
    ∀ (vs : List SVisit) (c : RenderModel),
      (∀ v ∈ vs, v.surface = c.surface) →
      (∀ v ∈ vs, visitVisible s pj vp v = false) →
      (List.foldl (stepContent s pj vp) c vs).fill = c.fill ∧
        (List.foldl (stepContent s pj vp) c vs).stroke = c.stroke := by
  intro vs
  induction vs with
  | nil => intro c _ _; exact ⟨rfl, rfl⟩
  | cons v vs ih =>
      intro c hsurf hnv
      have hvc : v.surface = c.surface := hsurf v (by simp)
      have hv : visitVisible s pj vp v = false := hnv v (by simp)
      rw [List.foldl_cons, stepContent_fill_of_invisible s pj vp c v hvc hv]
      have h1 : ∀ v' ∈ vs, v'.surface = (updateRM c v.transform pj vp).surface := by
        intro v' hv'
        rw [updateRM_surface]
        exact hsurf v' (by simp [hv'])
      have h2 : ∀ v' ∈ vs, visitVisible s pj vp v' = false := by
        intro v' hv'
        exact hnv v' (by simp [hv'])
      have := ih (updateRM c v.transform pj vp) h1 h2
      exact this

theorem foldl_stepContent_congr (s : Scene) (pj vp : M4) :
    ∀ (vs : List SVisit) (c c' : RenderModel),
      vs ≠ [] →
      c.surface = c'.surface →
      (∀ v ∈ vs, v.surface = c.surface) →
      ((∀ v ∈ vs, visitVisible s pj vp v = false) → c.fill = c'.fill ∧ c.stroke = c'.stroke) →
      List.foldl (stepContent s pj vp) c vs = List.foldl (stepContent s pj vp) c' vs := by
  intro vs
  induction vs with
  | nil => intro c c' hne; exact absurd rfl hne
  | cons v vs ih =>
      intro c c' _ hsurf hvsurf hnv
      have hvc : v.surface = c.surface := hvsurf v (by simp)
      rw [List.foldl_cons, List.foldl_cons]
      by_cases hv : visitVisible s pj vp v = true
      · have hc : stepContent s pj vp c v =
            quantizeModel s (shadeModel s v (updateRM c v.transform pj vp)) :=
          stepContent_of_visible s pj vp c v hvc hv
        have hc' : stepContent s pj vp c' v =
            quantizeModel s (shadeModel s v (updateRM c' v.transform pj vp)) :=
          stepContent_of_visible s pj vp c' v (hvc.trans hsurf) hv
        rw [hc, hc', shadeModel_updateRM_congr s v c c' v.transform pj vp hsurf]
      · have hvf : visitVisible s pj vp v = false := by
          revert hv
          cases visitVisible s pj vp v <;> simp
        have hc : stepContent s pj vp c v = updateRM c v.transform pj vp :=
          stepContent_fill_of_invisible s pj vp c v hvc hvf
        have hc' : stepContent s pj vp c' v = updateRM c' v.transform pj vp :=
          stepContent_fill_of_invisible s pj vp c' v (hvc.trans hsurf) hvf
        rw [hc, hc']
        rcases vs with _ | ⟨w, ws⟩
        · have hfills := hnv (by intro v' hv'; rcases List.mem_singleton.mp hv' with rfl; exact hvf)
          simp only [List.foldl_nil]
          rw [updateRM_congr c c' v.transform pj vp hsurf hfills.1 hfills.2]
        · apply ih
          · simp
          · simp only [updateRM_surface]; exact hsurf
          · intro v' hv'
            rw [updateRM_surface]
            exact hvsurf v' (by simp [hv'])
          · intro hnv'
            have hall : ∀ v'' ∈ v :: w :: ws, visitVisible s pj vp v'' = false := by
              intro v'' hv''
              rcases List.mem_cons.mp hv'' with rfl | htail
              · exact hvf
              · exact hnv' v'' htail
            have hfills := hnv hall
            constructor
            · show (updateRM c v.transform pj vp).fill = (updateRM c' v.transform pj vp).fill
              simp only [updateRM]
              exact hfills.1
            · show (updateRM c v.transform pj vp).stroke = (updateRM c' v.transform pj vp).stroke
              simp only [updateRM]
              exact hfills.2

theorem foldl_stepContent_idem (s : Scene) (pj vp : M4) (vs : List SVisit)
    (c : RenderModel) (hne : vs ≠ [])
    (hsurf : ∀ v ∈ vs, v.surface = c.surface) :
    List.foldl (stepContent s pj vp) (List.foldl (stepContent s pj vp) c vs) vs =
      List.foldl (stepContent s pj vp) c vs := by
  apply foldl_stepContent_congr s pj vp vs _ c hne
  · rw [foldl_stepContent_surface]
  · intro v hv
    rw [foldl_stepContent_surface]
    exact hsurf v hv
  · intro hnv
    exact foldl_stepContent_keeps_fill s pj vp vs c hsurf hnv

/-!
Characterization of the cached render walk.
-/

theorem cLookup_cons (k a : Nat) (rest : List (Nat × Nat)) (i : Nat) :
    cLookup ((k, a) :: rest) i = if k = i then some a else cLookup rest i := rfl

theorem argsOfId_cons (i : Nat) (v : SVisit) (vs : List SVisit) :
    argsOfId i (v :: vs) =
      if v.surface.id = i then v :: argsOfId i vs else argsOfId i vs := by
  simp only [argsOfId, List.filter_cons, decide_eq_true_eq]

theorem argsOfId_nil (i : Nat) : argsOfId i [] = [] := rfl

theorem runVisits_char (s : Scene) (pj vp : M4) (hc : s.cache = true) :
    ∀ (vs : List SVisit) (σ : RState), WFState σ → IdCoherent vs → Coherent vs σ →
      RunChar s pj vp vs σ (runVisits s pj vp vs σ).1 (runVisits s pj vp vs σ).2 := by
  intro vs
  induction vs with
  | nil =>
      intro σ hwf _ _
      refine ⟨hwf, le_refl _, ?_, ?_, ?_, ?_, rfl, ?_⟩
      · intro i a h; exact h
      · intro i h _; exact h
      · intro i h; exact absurd rfl h
      · intro i a h
        exact Or.inl ⟨h, rfl⟩
      · intro i a _ v hv _
        exact absurd hv (List.not_mem_nil v)
  | cons v vs ih =>
      intro σ hwf hidc hcoh
      have hidc' : IdCoherent vs := by
        intro v1 h1 v2 h2 he
        exact hidc v1 (List.mem_cons_of_mem _ h1) v2 (List.mem_cons_of_mem _ h2) he
      cases hl : cLookup σ.cache v.surface.id with
      | some a =>
          have hb : a < σ.heap.length := hwf.1 _ _ hl
          have hsold : (σ.heap.getD a blankModel).surface = v.surface :=
            hcoh v.surface.id a hl v (List.mem_cons_self v vs) rfl
          have hPV := processVisit_hit s pj vp σ v a hc hl hb hsold
          set c1 : RenderModel := stepContent s pj vp (σ.heap.getD a blankModel) v with hc1
          set σ1 : RState := ⟨σ.cache, σ.heap.set a c1⟩ with hσ1
          have hlen1 : σ1.heap.length = σ.heap.length := by
            simp [hσ1]
          have hcache1 : σ1.cache = σ.cache := rfl
          have hwf1 : WFState σ1 := by
            constructor
            · intro i b hlb
              rw [hlen1]
              exact hwf.1 i b hlb
            · exact hwf.2
          have hget1 : σ1.heap.getD a blankModel = c1 := getD_set_self _ _ _ _ hb
          have hget1' : ∀ b, b ≠ a → σ1.heap.getD b blankModel = σ.heap.getD b blankModel := by
            intro b hba
            exact getD_set_ne _ _ _ _ _ (fun h => hba h.symm)
          have hcoh1 : Coherent vs σ1 := by
            intro i b hlb v' hv' hid
            by_cases hba : b = a
            · subst hba
              have hiv : i = v.surface.id := hwf.2 i v.surface.id b hlb hl
              rw [hget1, hc1, stepContent_surface, hsold]
              exact (hidc v' (List.mem_cons_of_mem _ hv') v (List.mem_cons_self v vs)
                (by rw [hid, hiv])).symm ▸ rfl
            · rw [hget1' b hba]
              exact hcoh i b hlb v' (List.mem_cons_of_mem _ hv') hid
          obtain ⟨ihWF, ihLen, ihMono, ihNone, ihSome, ihContent, ihOut, ihCoh⟩ :=
            ih σ1 hwf1 hidc' hcoh1
          have hrun1 : (runVisits s pj vp (v :: vs) σ).1 = (runVisits s pj vp vs σ1).1 := by
            rw [runVisits_cons, hPV]
          have hrun2 : (runVisits s pj vp (v :: vs) σ).2 =
              (if visitVisible s pj vp v = true then [a] else []) ++
                (runVisits s pj vp vs σ1).2 := by
            rw [runVisits_cons, hPV]
          rw [hrun1, hrun2]
          refine ⟨ihWF, ?_, ?_, ?_, ?_, ?_, ?_, ?_⟩
          · calc σ.heap.length = σ1.heap.length := hlen1.symm
              _ ≤ _ := ihLen
          · intro i b hlb
            exact ihMono i b hlb
          · intro i hnone hargs
            rw [argsOfId_cons] at hargs
            by_cases hvi : v.surface.id = i
            · rw [if_pos hvi] at hargs
              exact absurd hargs (List.cons_ne_nil v _)
            · rw [if_neg hvi] at hargs
              exact ihNone i hnone hargs
          · intro i hargs
            by_cases hvi : v.surface.id = i
            · exact ⟨a, ihMono i a (hvi ▸ hl)⟩
            · rw [argsOfId_cons, if_neg hvi] at hargs
              exact ihSome i hargs
          · intro i b hlb
            rcases ihContent i b hlb with ⟨hl1, hcont⟩ | ⟨hl1, hble, v0, vrest, hargs, hcont⟩
            · by_cases hvi : v.surface.id = i
              · have hba : b = a := by
                  have := hl1
                  rw [hcache1] at this
                  rw [← hvi] at this
                  rw [hl] at this
                  exact (Option.some.injEq _ _ ▸ this).symm
                subst hba
                left
                refine ⟨by rw [← hvi]; exact hl, ?_⟩
                rw [hcont, hget1, hc1, argsOfId_cons, if_pos hvi, List.foldl_cons]
              · have hba : b ≠ a := by
                  intro hba
                  subst hba
                  have : i = v.surface.id := hwf.2 i v.surface.id b (hcache1 ▸ hl1) hl
                  exact hvi this.symm
                left
                refine ⟨hcache1 ▸ hl1, ?_⟩
                rw [hcont, hget1' b hba, argsOfId_cons, if_neg hvi]
            · right
              have hlnone : cLookup σ.cache i = none := hcache1 ▸ hl1
              have hvi : v.surface.id ≠ i := by
                intro hvi
                rw [← hvi] at hlnone
                rw [hl] at hlnone
                exact Option.noConfusion hlnone
              refine ⟨hlnone, by rw [← hlen1]; exact hble, v0, vrest, ?_, hcont⟩
              rw [argsOfId_cons, if_neg hvi, hargs]
          · have hlook : cLookup (runVisits s pj vp vs σ1).1.cache v.surface.id = some a :=
              ihMono v.surface.id a hl
            by_cases hvv : visitVisible s pj vp v = true
            · simp [List.filterMap_cons, hvv, hlook, ihOut]
            · have hvv' : visitVisible s pj vp v = false := by
                revert hvv
                cases visitVisible s pj vp v <;> simp
              simp [List.filterMap_cons, hvv', ihOut]
          · intro i b hlb v' hv' hid
            rcases List.mem_cons.mp hv' with rfl | htail
            · have h2 : cLookup (runVisits s pj vp vs σ1).1.cache i = some a := by
                apply ihMono
                show cLookup σ.cache i = some a
                rw [← hid]
                exact hl
              have hba : b = a := by
                rw [hlb] at h2
                injection h2
              subst hba
              rcases ihContent i b hlb with ⟨hl1, hcont⟩ | ⟨hl1, _, _, _, _, _⟩
              · rw [hcont, hget1, hc1, foldl_stepContent_surface, stepContent_surface, hsold]
              · rw [hcache1] at hl1
                rw [← hid] at hl1
                rw [hl] at hl1
                exact Option.noConfusion hl1
            · exact ihCoh i b hlb v' htail hid
      | none =>
          have hPV := processVisit_miss s pj vp σ v hc hl
          set c1 : RenderModel := stepContent s pj vp (blankFor v.surface) v with hc1
          set σ1 : RState := ⟨(v.surface.id, σ.heap.length) :: σ.cache, σ.heap ++ [c1]⟩
            with hσ1
          have hlen1 : σ1.heap.length = σ.heap.length + 1 := by
            simp [hσ1]
          have hlook1 : ∀ i, cLookup σ1.cache i =
              if v.surface.id = i then some σ.heap.length else cLookup σ.cache i := by
            intro i
            rfl
          have hwf1 : WFState σ1 := by
            constructor
            · intro i b hlb
              rw [hlook1] at hlb
              rw [hlen1]
              by_cases hvi : v.surface.id = i
              · rw [if_pos hvi] at hlb
                have : b = σ.heap.length := (Option.some.injEq _ _ ▸ hlb).symm
                omega
              · rw [if_neg hvi] at hlb
                have := hwf.1 i b hlb
                omega
            · intro i j b hli hlj
              rw [hlook1] at hli hlj
              by_cases hvi : v.surface.id = i
              · by_cases hvj : v.surface.id = j
                · rw [← hvi, ← hvj]
                · rw [if_pos hvi] at hli
                  rw [if_neg hvj] at hlj
                  have hbl : b = σ.heap.length := (Option.some.injEq _ _ ▸ hli).symm
                  have := hwf.1 j b hlj
                  omega
              · by_cases hvj : v.surface.id = j
                · rw [if_neg hvi] at hli
                  rw [if_pos hvj] at hlj
                  have hbl : b = σ.heap.length := (Option.some.injEq _ _ ▸ hlj).symm
                  have := hwf.1 i b hli
                  omega
                · rw [if_neg hvi] at hli
                  rw [if_neg hvj] at hlj
                  exact hwf.2 i j b hli hlj
          have hget1 : σ1.heap.getD σ.heap.length blankModel = c1 := getD_append_self _ _ _
          have hget1' : ∀ b, b < σ.heap.length →
              σ1.heap.getD b blankModel = σ.heap.getD b blankModel := by
            intro b hblt
            exact getD_append_left _ _ _ _ hblt
          have hcoh1 : Coherent vs σ1 := by
            intro i b hlb v' hv' hid
            rw [hlook1] at hlb
            by_cases hvi : v.surface.id = i
            · rw [if_pos hvi] at hlb
              have hbl : b = σ.heap.length := (Option.some.injEq _ _ ▸ hlb).symm
              subst hbl
              rw [hget1, hc1, stepContent_surface]
              show (blankFor v.surface).surface = v'.surface
              exact hidc v (List.mem_cons_self v vs) v' (List.mem_cons_of_mem _ hv')
                (by rw [hid, hvi])
            · rw [if_neg hvi] at hlb
              rw [hget1' b (hwf.1 i b hlb)]
              exact hcoh i b hlb v' (List.mem_cons_of_mem _ hv') hid
          obtain ⟨ihWF, ihLen, ihMono, ihNone, ihSome, ihContent, ihOut, ihCoh⟩ :=
            ih σ1 hwf1 hidc' hcoh1
          have hrun1 : (runVisits s pj vp (v :: vs) σ).1 = (runVisits s pj vp vs σ1).1 := by
            rw [runVisits_cons, hPV]
          have hrun2 : (runVisits s pj vp (v :: vs) σ).2 =
              (if visitVisible s pj vp v = true then [σ.heap.length] else []) ++
                (runVisits s pj vp vs σ1).2 := by
            rw [runVisits_cons, hPV]
          rw [hrun1, hrun2]
          have hmono1 : ∀ i b, cLookup σ.cache i = some b → cLookup σ1.cache i = some b := by
            intro i b hlb
            rw [hlook1]
            by_cases hvi : v.surface.id = i
            · rw [← hvi] at hlb
              rw [hl] at hlb
              exact Option.noConfusion hlb
            · rw [if_neg hvi]
              exact hlb
          refine ⟨ihWF, ?_, ?_, ?_, ?_, ?_, ?_, ?_⟩
          · calc σ.heap.length ≤ σ1.heap.length := by omega
              _ ≤ _ := ihLen
          · intro i b hlb
            exact ihMono i b (hmono1 i b hlb)
          · intro i hnone hargs
            rw [argsOfId_cons] at hargs
            by_cases hvi : v.surface.id = i
            · rw [if_pos hvi] at hargs
              exact absurd hargs (List.cons_ne_nil v _)
            · rw [if_neg hvi] at hargs
              apply ihNone i _ hargs
              rw [hlook1, if_neg hvi]
              exact hnone
          · intro i hargs
            by_cases hvi : v.surface.id = i
            · refine ⟨σ.heap.length, ihMono i _ ?_⟩
              rw [hlook1, if_pos hvi]
            · rw [argsOfId_cons, if_neg hvi] at hargs
              exact ihSome i hargs
          · intro i b hlb
            rcases ihContent i b hlb with ⟨hl1, hcont⟩ | ⟨hl1, hble, v0, vrest, hargs, hcont⟩
            · rw [hlook1] at hl1
              by_cases hvi : v.surface.id = i
              · rw [if_pos hvi] at hl1
                have hbl : b = σ.heap.length := (Option.some.injEq _ _ ▸ hl1).symm
                subst hbl
                right
                refine ⟨by rw [← hvi]; exact hl, le_refl _, v, argsOfId i vs, ?_, ?_⟩
                · rw [argsOfId_cons, if_pos hvi]
                · rw [hcont, hget1, hc1, List.foldl_cons]
              · rw [if_neg hvi] at hl1
                left
                refine ⟨hl1, ?_⟩
                rw [hcont, hget1' b (hwf.1 i b hl1), argsOfId_cons, if_neg hvi]
            · rw [hlook1] at hl1
              by_cases hvi : v.surface.id = i
              · rw [if_pos hvi] at hl1
                exact Option.noConfusion hl1
              · rw [if_neg hvi] at hl1
                right
                refine ⟨hl1, by omega, v0, vrest, ?_, hcont⟩
                rw [argsOfId_cons, if_neg hvi, hargs]
          · have hlook : cLookup (runVisits s pj vp vs σ1).1.cache v.surface.id =
                some σ.heap.length := by
              apply ihMono
              rw [hlook1, if_pos rfl]
            by_cases hvv : visitVisible s pj vp v = true
            · simp [List.filterMap_cons, hvv, hlook, ihOut]
            · have hvv' : visitVisible s pj vp v = false := by
                revert hvv
                cases visitVisible s pj vp v <;> simp
              simp [List.filterMap_cons, hvv', ihOut]
          · intro i b hlb v' hv' hid
            rcases List.mem_cons.mp hv' with rfl | htail
            · have h2 : cLookup (runVisits s pj vp vs σ1).1.cache i =
                  some σ.heap.length := by
                apply ihMono
                rw [hlook1, if_pos hid]
              have hba : b = σ.heap.length := by
                rw [hlb] at h2
                injection h2
              subst hba
              rcases ihContent i σ.heap.length hlb with ⟨hl1, hcont⟩ |
                ⟨hl1, hble, v0, vrest, hargs, hcont⟩
              · rw [hcont, hget1, hc1, foldl_stepContent_surface, stepContent_surface]
                show (blankFor v'.surface).surface = v'.surface
                rfl
              · rw [hlen1] at hble
                omega
            · exact ihCoh i b hlb v' htail hid

theorem runVisits_nocache_char (s : Scene) (pj vp : M4) (hc : s.cache = false) :
    ∀ (vs : List SVisit) (σ : RState),
      (runVisits s pj vp vs σ).1.cache = σ.cache ∧
      σ.heap.length ≤ (runVisits s pj vp vs σ).1.heap.length ∧
      (∀ b, b < σ.heap.length →
        (runVisits s pj vp vs σ).1.heap.getD b blankModel = σ.heap.getD b blankModel) ∧
      (∀ a ∈ (runVisits s pj vp vs σ).2, σ.heap.length ≤ a ∧
        ∃ v ∈ vs, visitVisible s pj vp v = true ∧
          (runVisits s pj vp vs σ).1.heap.getD a blankModel =
            stepContent s pj vp (blankFor v.surface) v) := by
  intro vs
  induction vs with
  | nil =>
      intro σ
      refine ⟨rfl, le_refl _, fun b _ => rfl, ?_⟩
      intro a ha
      exact absurd ha (List.not_mem_nil a)
  | cons v vs ih =>
      intro σ
      have hPV := processVisit_nocache s pj vp σ v hc
      set c1 : RenderModel := stepContent s pj vp (blankFor v.surface) v with hc1
      set σ1 : RState := ⟨σ.cache, σ.heap ++ [c1]⟩ with hσ1
      have hlen1 : σ1.heap.length = σ.heap.length + 1 := by simp [hσ1]
      obtain ⟨ihCache, ihLen, ihStable, ihOut⟩ := ih σ1
      have hrun1 : (runVisits s pj vp (v :: vs) σ).1 = (runVisits s pj vp vs σ1).1 := by
        rw [runVisits_cons, hPV]
      have hrun2 : (runVisits s pj vp (v :: vs) σ).2 =
          (if visitVisible s pj vp v = true then [σ.heap.length] else []) ++
            (runVisits s pj vp vs σ1).2 := by
        rw [runVisits_cons, hPV]
      rw [hrun1, hrun2]
      refine ⟨ihCache, by omega, ?_, ?_⟩
      · intro b hblt
        rw [ihStable b (by omega)]
        exact getD_append_left _ _ _ _ hblt
      · intro a ha
        rcases List.mem_append.mp ha with hhead | htail
        · by_cases hv : visitVisible s pj vp v = true
          · rw [if_pos hv] at hhead
            rcases List.mem_singleton.mp hhead with rfl
            refine ⟨le_refl _, v, List.mem_cons_self v vs, hv, ?_⟩
            rw [ihStable σ.heap.length (by omega)]
            exact getD_append_self _ _ _
          · rw [if_neg hv] at hhead
            exact absurd hhead (List.not_mem_nil a)
        · obtain ⟨hle, v', hv', hvis, hcont⟩ := ihOut a htail
          exact ⟨by omega, v', List.mem_cons_of_mem _ hv', hvis, hcont⟩

theorem argsOfId_singleton_of_nodup (vs : List SVisit)
    (hnd : (vs.map (fun v => v.surface.id)).Nodup) (v : SVisit) (hv : v ∈ vs) :
    argsOfId v.surface.id vs = [v] := by
  induction vs with
  | nil => exact absurd hv (List.not_mem_nil v)
  | cons w ws ih =>
      rw [List.map_cons, List.nodup_cons] at hnd
      rcases List.mem_cons.mp hv with rfl | htail
      · rw [argsOfId_cons, if_pos rfl]
        have : argsOfId v.surface.id ws = [] := by
          rw [argsOfId]
          rw [List.filter_eq_nil_iff]
          intro w' hw'
          simp only [decide_eq_true_eq]
          intro he
          exact hnd.1 (he ▸ List.mem_map_of_mem (fun v => v.surface.id) hw')
        rw [this]
      · rw [argsOfId_cons]
        have hne : w.surface.id ≠ v.surface.id := by
          intro he
          exact hnd.1 (he ▸ List.mem_map_of_mem (fun v => v.surface.id) htail)
        rw [if_neg hne]
        exact ih hnd.2 htail

/-!
Field-level facts about `stepContent` and the surface step, and membership in
the sorted output.
-/

theorem stepContent_fields (s : Scene) (pj vp : M4) (c : RenderModel) (v : SVisit) :
    (stepContent s pj vp c v).transform = v.transform ∧
    (stepContent s pj vp c v).projection = pj ∧
    (stepContent s pj vp c v).viewport = vp ∧
    (stepContent s pj vp c v).transformed = transformedOf c.surface v.transform := by
  simp only [stepContent]
  by_cases h : visibleModel s v.surface (updateRM c v.transform pj vp) = true
  · rw [if_pos h]
    unfold quantizeModel
    by_cases hf : s.fractionalPoints = true
    · rw [if_pos hf]
      exact ⟨rfl, rfl, rfl, rfl⟩
    · rw [if_neg hf]
      exact ⟨rfl, rfl, rfl, rfl⟩
  · rw [if_neg h]
    exact ⟨rfl, rfl, rfl, rfl⟩

theorem stepContent_projected_fractional (s : Scene) (pj vp : M4) (c : RenderModel)
    (v : SVisit) (hf : s.fractionalPoints = true) :
    (stepContent s pj vp c v).projected = projectedOf c.surface v.transform pj vp := by
  simp only [stepContent]
  by_cases h : visibleModel s v.surface (updateRM c v.transform pj vp) = true
  · rw [if_pos h]
    unfold quantizeModel
    rw [if_pos hf]
    rfl
  · rw [if_neg h]
    rfl

theorem stepContent_points_rounded (s : Scene) (pj vp : M4) (c : RenderModel)
    (v : SVisit) (hf : s.fractionalPoints = false) (hs : v.surface = c.surface)
    (hv : visitVisible s pj vp v = true) :
    (stepContent s pj vp c v).projected.points =
      (projectedOf c.surface v.transform pj vp).points.map roundPoint := by
  rw [stepContent_of_visible s pj vp c v hs hv]
  unfold quantizeModel
  rw [hf]
  simp only [Bool.false_eq_true, if_false]
  rfl

theorem renderSurfaceStep_addr_lt (s : Scene) (σ : RState) (surf : Surface)
    (t pj vp : M4) (hwf : WFState σ) :
    (renderSurfaceStep s σ surf t pj vp).2 <
      (renderSurfaceStep s σ surf t pj vp).1.heap.length := by
  unfold renderSurfaceStep
  by_cases hc : s.cache = false
  · simp [hc]
  · simp only [hc, if_neg, Bool.false_eq_true, if_false]
    cases hl : cLookup σ.cache surf.id with
    | none => simp
    | some a =>
        have := hwf.1 _ _ hl
        simpa using this

theorem renderSurfaceStep_addr_id_only (s : Scene) (σ : RState)
    (surf surf' : Surface) (t t' pj pj' vp vp' : M4) (hid : surf.id = surf'.id) :
    (renderSurfaceStep s σ surf t pj vp).2 = (renderSurfaceStep s σ surf' t' pj' vp').2 := by
  unfold renderSurfaceStep
  by_cases hc : s.cache = false
  · simp [hc]
  · simp only [hc, if_neg, Bool.false_eq_true, if_false]
    rw [hid]
    cases cLookup σ.cache surf'.id with
    | none => simp
    | some a => simp

theorem mem_sortAddrs (heap : List RenderModel) (l : List Nat) (a : Nat) :
    a ∈ sortAddrs heap l ↔ a ∈ l :=
  (sortDesc_perm (keyOf heap) l).mem_iff

theorem roundPoint_int_coords (p : P3) :
    (∃ k : ℤ, (roundPoint p).x = (k : ℚ)) ∧ (∃ k : ℤ, (roundPoint p).y = (k : ℚ)) :=
  ⟨⟨round p.x, rfl⟩, ⟨round p.y, rfl⟩⟩

theorem foldl_stepContent_last_fields (s : Scene) (pj vp : M4) (base : RenderModel)
    (l : List SVisit) (vlast : SVisit) :
    (List.foldl (stepContent s pj vp) base (l ++ [vlast])).transform = vlast.transform ∧
    (List.foldl (stepContent s pj vp) base (l ++ [vlast])).transformed =
      transformedOf base.surface vlast.transform := by
  rw [List.foldl_append, List.foldl_cons, List.foldl_nil]
  obtain ⟨h1, _, _, h4⟩ :=
    stepContent_fields s pj vp (List.foldl (stepContent s pj vp) base l) vlast
  rw [h1, h4, foldl_stepContent_surface]
  exact ⟨rfl, rfl⟩

/-!
The compositor store computation: `copy` then two in-place `multiply` calls
append exactly one fresh matrix holding the composition.
-/

theorem composeProjectionStore_eq (st : MatStore) (cam pre proj : Nat) :
    composeProjectionStore st cam pre proj =
      (⟨st.mats ++ [matMul (matMul (st.mats.getD cam idM4)
          ((st.mats ++ [st.mats.getD cam idM4]).getD pre idM4))
          ((st.mats ++ [matMul (st.mats.getD cam idM4)
            ((st.mats ++ [st.mats.getD cam idM4]).getD pre idM4)]).getD proj idM4)]⟩,
        st.mats.length) := by
  simp only [composeProjectionStore, mcopy, mmulInPlace]
  rw [getD_append_self, set_append_self, getD_append_self, set_append_self]

/-!
Evaluation helpers for the concrete scenes (the identity matrix acts as the
identity, and the example surface is inside the frustum untranslated and
outside it when translated by two units).
-/

theorem applyM_idM4 (p : P3) : applyM idM4 p = p := by
  simp [applyM, idM4]

theorem matMul_idM4_idM4 : matMul idM4 idM4 = idM4 := by
  simp [matMul, idM4]

theorem visitVisible_of_cull_off (s : Scene) (pj : M4) (vp : M4) (v : SVisit)
    (hs : s.cullBackfaces = false) :
    visitVisible s pj vp v = inFrustrumOf v.surface v.transform pj := by
  simp [visitVisible, visibleModel, newRM, hs]

theorem applyM_exMoveX2 (p : P3) : applyM exMoveX2 p = ⟨p.x + 2, p.y, p.z⟩ := by
  simp [applyM, exMoveX2]

theorem inFrustrumOf_exSurf_id : inFrustrumOf exSurf idM4 idM4 = true := by
  simp only [inFrustrumOf, clipPointsOf, transformedOf, exSurf, List.map_cons,
    List.map_nil, applyM_idM4, List.all_cons, List.all_nil, Bool.and_true,
    decide_eq_true_eq]
  norm_num

theorem inFrustrumOf_exSurf_moved : inFrustrumOf exSurf exMoveX2 idM4 = false := by
  simp only [inFrustrumOf, clipPointsOf, transformedOf, exSurf, List.map_cons,
    List.map_nil, applyM_idM4, applyM_exMoveX2, List.all_cons, List.all_nil,
    Bool.and_true]
  rw [decide_eq_false_iff_not]
  norm_num

/-!
Claim theorems.
-/

/-- C1: the list returned by `render()` is sorted by descending projected
barycenter depth (farthest first, Painter's Algorithm): it is the stable
descending sort of the surviving render models, every pair of adjacent
entries has non-increasing barycenter depth, the output is a permutation of
the pre-sort list, and entries of equal depth keep their pre-sort order. -/
theorem C1_depth_sort_stable (s : Scene) (σ : RState) :
    (render s σ).2 = sortAddrs (finalState s σ).heap (presortAddrs s σ) ∧
    List.Chain' (fun a b => keyOf (render s σ).1.heap b ≤ keyOf (render s σ).1.heap a)
      (render s σ).2 ∧
    (render s σ).2.Perm (presortAddrs s σ) ∧
    (∀ c : ℚ, (render s σ).2.filter (fun a => keyOf (render s σ).1.heap a = c) =
      (presortAddrs s σ).filter (fun a => keyOf (render s σ).1.heap a = c)) := by
  have hr := render_eq s σ
  have h1 : (render s σ).1 = finalState s σ := by rw [hr]
  have h2 : (render s σ).2 = sortAddrs (finalState s σ).heap (presortAddrs s σ) := by rw [hr]
  refine ⟨h2, ?_, ?_, ?_⟩
  · rw [h2, h1]
    exact List.Pairwise.chain' (sortDesc_sorted _ _)
  · rw [h2]
    exact sortDesc_perm _ _
  · intro c
    rw [h2, h1]
    exact sortDesc_stable _ _ c

/-- C2: the visibility test of `render()` equals the spec's rule — a render
model is kept iff it is inside the frustum AND (scene-level culling is off OR
the surface's cull flag is off OR the projected normal's z is negative); in
particular a model whose frustum flag is false is never kept, whatever the
cull flags; each visit contributes its render model's address to the output
iff its model passes the test, and the sorted output has exactly the
pre-sort members. -/
theorem C2_visibility_filter (s : Scene) (pj vp : M4) (σ : RState) (v : SVisit) :
    (∀ (surf : Surface) (r : RenderModel),
      visibleModel s surf r = visibleRuleSpec s surf r) ∧
    (∀ (surf : Surface) (r : RenderModel),
      r.inFrustrum = false → visibleModel s surf r = false) ∧
    ((processVisit s pj vp σ v).2 =
      if visibleModel s v.surface
          ((renderSurfaceStep s σ v.surface v.transform pj vp).1.heap.getD
            (renderSurfaceStep s σ v.surface v.transform pj vp).2 blankModel) = true
        then [(renderSurfaceStep s σ v.surface v.transform pj vp).2] else []) ∧
    (∀ a, a ∈ (render s σ).2 ↔ a ∈ presortAddrs s σ) := by
  refine ⟨?_, ?_, ?_, ?_⟩
  · intro surf r
    unfold visibleModel visibleRuleSpec
    exact Bool.and_comm _ _
  · intro surf r h
    simp [visibleModel, h]
  · simp only [processVisit]
    rw [apply_ite Prod.snd]
  · intro a
    have hr := render_eq s σ
    have h2 : (render s σ).2 = sortAddrs (finalState s σ).heap (presortAddrs s σ) := by
      rw [hr]
    rw [h2]
    exact mem_sortAddrs _ _ a

/-- C3: the render-model builder constructs a fresh record on every call when
caching is off; with caching on, a miss on the surface's id constructs a new
record and stores it under that id, and a hit updates the stored record's
matrices and geometry in place and returns the same record (same address). -/
theorem C3_render_model_builder (s : Scene) (σ : RState) (surf : Surface) (t pj vp : M4) :
    (s.cache = false →
      renderSurfaceStep s σ surf t pj vp =
        (⟨σ.cache, σ.heap ++ [newRM surf t pj vp]⟩, σ.heap.length)) ∧
    (s.cache = true → cLookup σ.cache surf.id = none →
      renderSurfaceStep s σ surf t pj vp =
        (⟨(surf.id, σ.heap.length) :: σ.cache,
            σ.heap ++ [newRM surf t pj vp]⟩, σ.heap.length)) ∧
    (∀ a, s.cache = true → cLookup σ.cache surf.id = some a →
      renderSurfaceStep s σ surf t pj vp =
        (⟨σ.cache, σ.heap.set a (updateRM (σ.heap.getD a blankModel) t pj vp)⟩, a)) ∧
    (∀ r : RenderModel,
      (updateRM r t pj vp).surface = r.surface ∧
      (updateRM r t pj vp).transform = t ∧
      (updateRM r t pj vp).projection = pj ∧
      (updateRM r t pj vp).viewport = vp ∧
      (updateRM r t pj vp).transformed = transformedOf r.surface t ∧
      (updateRM r t pj vp).projected = projectedOf r.surface t pj vp) := by
  refine ⟨?_, ?_, ?_, ?_⟩
  · intro hc
    simp [renderSurfaceStep, hc]
  · intro hc hl
    simp [renderSurfaceStep, hc, hl]
  · intro a hc hl
    simp [renderSurfaceStep, hc, hl]
  · intro r
    exact ⟨rfl, rfl, rfl, rfl, rfl, rfl⟩

/-- Witness for C3: the three builder modes exercised on concrete states. -/
theorem C3_render_model_builder_witness :
    (renderSurfaceStep { exSceneSingle with cache := false } rstateEmpty exSurf idM4 idM4 idM4 =
      (⟨rstateEmpty.cache, rstateEmpty.heap ++ [newRM exSurf idM4 idM4 idM4]⟩,
        rstateEmpty.heap.length)) ∧
    (renderSurfaceStep exSceneSingle rstateEmpty exSurf idM4 idM4 idM4 =
      (⟨(exSurf.id, rstateEmpty.heap.length) :: rstateEmpty.cache,
          rstateEmpty.heap ++ [newRM exSurf idM4 idM4 idM4]⟩, rstateEmpty.heap.length)) ∧
    (renderSurfaceStep exSceneSingle ⟨[(1, 0)], [blankFor exSurf]⟩ exSurf idM4 idM4 idM4 =
      (⟨[(1, 0)],
          [blankFor exSurf].set 0
            (updateRM ([blankFor exSurf].getD 0 blankModel) idM4 idM4 idM4)⟩, 0)) :=
  ⟨(C3_render_model_builder { exSceneSingle with cache := false }
      rstateEmpty exSurf idM4 idM4 idM4).1 rfl,
    (C3_render_model_builder exSceneSingle rstateEmpty exSurf idM4 idM4 idM4).2.1 rfl rfl,
    (C3_render_model_builder exSceneSingle ⟨[(1, 0)], [blankFor exSurf]⟩
      exSurf idM4 idM4 idM4).2.2.1 0 rfl rfl⟩

/-- C5: composing the frame projection on the matrix store yields exactly
`camera.matrix × viewport.prescale × camera.projectionMatrix`
(left-associative), and the separate viewport matrix used by `render()` is
exactly `viewport.postscale`. -/
theorem C5_transform_compositor (s : Scene) (st : MatStore) (cam pre proj : Nat)
    (hpre : pre < st.mats.length) (hproj : proj < st.mats.length)
    (hvcam : st.mats.getD cam idM4 = s.camera.m)
    (hvpre : st.mats.getD pre idM4 = s.viewport.prescale)
    (hvproj : st.mats.getD proj idM4 = s.camera.projection) :
    (composeProjectionStore st cam pre proj).1.mats.getD
        (composeProjectionStore st cam pre proj).2 idM4 =
      matMul (matMul s.camera.m s.viewport.prescale) s.camera.projection ∧
    sceneProjection s = matMul (matMul s.camera.m s.viewport.prescale) s.camera.projection ∧
    sceneViewportM s = s.viewport.postscale := by
  refine ⟨?_, rfl, rfl⟩
  rw [composeProjectionStore_eq]
  rw [getD_append_self]
  rw [getD_append_left _ _ _ _ hpre, getD_append_left _ _ _ _ hproj]
  rw [hvcam, hvpre, hvproj]

/-- Witness for C5: the compositor run on a concrete store of four distinct
matrices produces the triple product. -/
theorem C5_transform_compositor_witness :
    (composeProjectionStore exStore 0 1 2).1.mats.getD
        (composeProjectionStore exStore 0 1 2).2 idM4 =
      matMul (matMul exSceneMats.camera.m exSceneMats.viewport.prescale)
        exSceneMats.camera.projection ∧
    sceneProjection exSceneMats =
      matMul (matMul exSceneMats.camera.m exSceneMats.viewport.prescale)
        exSceneMats.camera.projection ∧
    sceneViewportM exSceneMats = exSceneMats.viewport.postscale :=
  C5_transform_compositor exSceneMats exStore 0 1 2 (by decide) (by decide) rfl rfl rfl

/-- C9: composing the frame projection never mutates any pre-existing matrix
object: it allocates one fresh matrix and every live address, in particular
those of `camera.m`, `camera.projection`, `viewport.prescale` and
`viewport.postscale`, still holds its old value afterwards. -/
theorem C9_compositor_no_side_effects (st : MatStore) (cam pre proj a : Nat)
    (ha : a < st.mats.length) :
    (composeProjectionStore st cam pre proj).1.mats.getD a idM4 = st.mats.getD a idM4 ∧
    (composeProjectionStore st cam pre proj).1.mats.length = st.mats.length + 1 := by
  rw [composeProjectionStore_eq]
  constructor
  · exact getD_append_left _ _ _ _ ha
  · simp

/-- Witness for C9: on the concrete store, all four stored matrices are
unchanged by the composition. -/
theorem C9_compositor_no_side_effects_witness :
    ((composeProjectionStore exStore 0 1 2).1.mats.getD 0 idM4 = exStore.mats.getD 0 idM4 ∧
      (composeProjectionStore exStore 0 1 2).1.mats.length = exStore.mats.length + 1) ∧
    ((composeProjectionStore exStore 0 1 2).1.mats.getD 3 idM4 = exStore.mats.getD 3 idM4 ∧
      (composeProjectionStore exStore 0 1 2).1.mats.length = exStore.mats.length + 1) :=
  ⟨C9_compositor_no_side_effects exStore 0 1 2 0 (by decide),
    C9_compositor_no_side_effects exStore 0 1 2 3 (by decide)⟩

/-- C7: for a render model passing the visibility test, the fill result is
present iff the surface has a fill material and the stroke result is present
iff it has a stroke material; each is computed independently from the visit's
lights and the scene's shader applied to the model's transformed geometry,
and an absent material yields an absent result rather than an error. -/
theorem C7_shading_invoker (s : Scene) (pj vp : M4) (σ : RState) (v : SVisit)
    (hwf : WFState σ) :
    (∀ r : RenderModel,
      (shadeModel s v r).fill =
        v.surface.fillMaterial.map (fun m => mkShaded m v.lights s.shader r.transformed) ∧
      (shadeModel s v r).stroke =
        v.surface.strokeMaterial.map (fun m => mkShaded m v.lights s.shader r.transformed)) ∧
    (∀ r : RenderModel, v.surface.fillMaterial = none → (shadeModel s v r).fill = none) ∧
    (∀ (r : RenderModel) (m : Material), v.surface.fillMaterial = some m →
      (shadeModel s v r).fill = some (mkShaded m v.lights s.shader r.transformed)) ∧
    (∀ r : RenderModel, v.surface.strokeMaterial = none → (shadeModel s v r).stroke = none) ∧
    (∀ (r : RenderModel) (m : Material), v.surface.strokeMaterial = some m →
      (shadeModel s v r).stroke = some (mkShaded m v.lights s.shader r.transformed)) ∧
    (visibleModel s v.surface
        ((renderSurfaceStep s σ v.surface v.transform pj vp).1.heap.getD
          (renderSurfaceStep s σ v.surface v.transform pj vp).2 blankModel) = true →
      (processVisit s pj vp σ v).1.heap.getD
          (renderSurfaceStep s σ v.surface v.transform pj vp).2 blankModel =
        quantizeModel s (shadeModel s v
          ((renderSurfaceStep s σ v.surface v.transform pj vp).1.heap.getD
            (renderSurfaceStep s σ v.surface v.transform pj vp).2 blankModel)) ∧
      (processVisit s pj vp σ v).2 = [(renderSurfaceStep s σ v.surface v.transform pj vp).2]) := by
  refine ⟨?_, ?_, ?_, ?_, ?_, ?_⟩
  · intro r
    exact ⟨rfl, rfl⟩
  · intro r h
    simp [shadeModel, h]
  · intro r m h
    simp [shadeModel, h, mkShaded]
  · intro r h
    simp [shadeModel, h]
  · intro r m h
    simp [shadeModel, h, mkShaded]
  · intro hv
    have hlt := renderSurfaceStep_addr_lt s σ v.surface v.transform pj vp hwf
    constructor
    · simp only [processVisit, hv, if_true]
      exact getD_set_self _ _ _ _ hlt
    · simp only [processVisit, hv, if_true]

/-- Witness for C7: the shading invoker on a concrete visible visit; the fill
material is present and the stroke material absent. -/
theorem C7_shading_invoker_witness :
    ((∀ r : RenderModel,
      (shadeModel exSceneSingle exVisit r).fill =
        exVisit.surface.fillMaterial.map
          (fun m => mkShaded m exVisit.lights exSceneSingle.shader r.transformed) ∧
      (shadeModel exSceneSingle exVisit r).stroke =
        exVisit.surface.strokeMaterial.map
          (fun m => mkShaded m exVisit.lights exSceneSingle.shader r.transformed)) ∧
    (∀ r : RenderModel, exVisit.surface.fillMaterial = none →
      (shadeModel exSceneSingle exVisit r).fill = none) ∧
    (∀ (r : RenderModel) (m : Material), exVisit.surface.fillMaterial = some m →
      (shadeModel exSceneSingle exVisit r).fill =
        some (mkShaded m exVisit.lights exSceneSingle.shader r.transformed)) ∧
    (∀ r : RenderModel, exVisit.surface.strokeMaterial = none →
      (shadeModel exSceneSingle exVisit r).stroke = none) ∧
    (∀ (r : RenderModel) (m : Material), exVisit.surface.strokeMaterial = some m →
      (shadeModel exSceneSingle exVisit r).stroke =
        some (mkShaded m exVisit.lights exSceneSingle.shader r.transformed)) ∧
    (visibleModel exSceneSingle exVisit.surface
        ((renderSurfaceStep exSceneSingle rstateEmpty exVisit.surface exVisit.transform
            idM4 idM4).1.heap.getD
          (renderSurfaceStep exSceneSingle rstateEmpty exVisit.surface exVisit.transform
            idM4 idM4).2 blankModel) = true →
      (processVisit exSceneSingle idM4 idM4 rstateEmpty exVisit).1.heap.getD
          (renderSurfaceStep exSceneSingle rstateEmpty exVisit.surface exVisit.transform
            idM4 idM4).2 blankModel =
        quantizeModel exSceneSingle (shadeModel exSceneSingle exVisit
          ((renderSurfaceStep exSceneSingle rstateEmpty exVisit.surface exVisit.transform
              idM4 idM4).1.heap.getD
            (renderSurfaceStep exSceneSingle rstateEmpty exVisit.surface exVisit.transform
              idM4 idM4).2 blankModel)) ∧
      (processVisit exSceneSingle idM4 idM4 rstateEmpty exVisit).2 =
        [(renderSurfaceStep exSceneSingle rstateEmpty exVisit.surface exVisit.transform
            idM4 idM4).2])) :=
  C7_shading_invoker exSceneSingle idM4 idM4 rstateEmpty exVisit
    ⟨fun _ _ h => Option.noConfusion h, fun _ _ _ h _ => Option.noConfusion h⟩

/-- C8: the render-model cache is keyed strictly on surface identity and holds
at most one record per surface per scene: the final cache maps each id to at
most one slot, no two ids share a slot, the builder's address depends only on
the surface's id, two visits of surfaces with the same id resolve to the one
shared slot, and after the frame the shared record holds the transform and
recomputed geometry of the id's last visit (the second visit overwrites the
first). -/
theorem C8_cache_slot_identity (s : Scene) (σ : RState) (v1 v2 : SVisit)
    (hc : s.cache = true) (hwf : WFState σ)
    (hidc : IdCoherent (svisitsScene s)) (hcoh : Coherent (svisitsScene s) σ)
    (hv1 : v1 ∈ svisitsScene s) (hv2 : v2 ∈ svisitsScene s)
    (hid : v1.surface.id = v2.surface.id) :
    (∀ i a b, cLookup (finalState s σ).cache i = some a →
      cLookup (finalState s σ).cache i = some b → a = b) ∧
    (∀ i j a, cLookup (finalState s σ).cache i = some a →
      cLookup (finalState s σ).cache j = some a → i = j) ∧
    (∀ (σ0 : RState) (t t' pjx pjx' vpx vpx' : M4),
      (renderSurfaceStep s σ0 v1.surface t pjx vpx).2 =
        (renderSurfaceStep s σ0 v2.surface t' pjx' vpx').2) ∧
    (∃ a, cLookup (finalState s σ).cache v1.surface.id = some a ∧
      cLookup (finalState s σ).cache v2.surface.id = some a) ∧
    (∀ (largs : List SVisit) (vlast : SVisit),
      argsOfId v1.surface.id (svisitsScene s) = largs ++ [vlast] →
      ∀ a, cLookup (finalState s σ).cache v1.surface.id = some a →
        ((finalState s σ).heap.getD a blankModel).transform = vlast.transform ∧
        ((finalState s σ).heap.getD a blankModel).transformed =
          transformedOf ((finalState s σ).heap.getD a blankModel).surface
            vlast.transform) := by
  unfold finalState
  obtain ⟨chWF, chLen, chMono, chNone, chSome, chContent, chOut, chCoh⟩ :=
    runVisits_char s (sceneProjection s) (sceneViewportM s) hc (svisitsScene s) σ
      hwf hidc hcoh
  have hargs1 : argsOfId v1.surface.id (svisitsScene s) ≠ [] := by
    apply List.ne_nil_of_mem (a := v1)
    unfold argsOfId
    rw [List.mem_filter]
    exact ⟨hv1, by simp⟩
  refine ⟨?_, ?_, ?_, ?_, ?_⟩
  · intro i a b ha hb
    rw [ha] at hb
    injection hb
  · intro i j a ha hb
    exact chWF.2 i j a ha hb
  · intro σ0 t t' pjx pjx' vpx vpx'
    have h1 := renderSurfaceStep_addr_id_only s σ0 v1.surface v2.surface t t'
      pjx pjx' vpx vpx' hid
    exact h1
  · obtain ⟨a, ha⟩ := chSome v1.surface.id hargs1
    exact ⟨a, ha, hid ▸ ha⟩
  · intro largs vlast heq a ha
    rcases chContent v1.surface.id a ha with ⟨hl0, hcont⟩ |
      ⟨hl0, hle, v0, vrest, hargs0, hcont⟩
    · rw [heq] at hcont
      obtain ⟨ht, htr⟩ := foldl_stepContent_last_fields s (sceneProjection s)
        (sceneViewportM s) (σ.heap.getD a blankModel) largs vlast
      rw [hcont]
      refine ⟨ht, ?_⟩
      rw [htr, foldl_stepContent_surface]
    · rw [heq] at hargs0
      rw [← hargs0] at hcont
      obtain ⟨ht, htr⟩ := foldl_stepContent_last_fields s (sceneProjection s)
        (sceneViewportM s) (blankFor v0.surface) largs vlast
      rw [hcont]
      refine ⟨ht, ?_⟩
      rw [htr, foldl_stepContent_surface]

/-- C10: with caching enabled, when the walker visits a surface (by id) twice
within one `render()` call and both visits pass the visibility test, the
sorted output contains at least two entries holding the same address — two
references to the single shared record — and that record's stored transform
and geometry are those of the id's last visit. -/
theorem C10_aliased_output (s : Scene) (σ : RState) (v1 v2 : SVisit)
    (l1 l2 l3 : List SVisit)
    (hc : s.cache = true) (hwf : WFState σ)
    (hidc : IdCoherent (svisitsScene s)) (hcoh : Coherent (svisitsScene s) σ)
    (hsplit : svisitsScene s = l1 ++ v1 :: (l2 ++ v2 :: l3))
    (hid : v1.surface.id = v2.surface.id)
    (hvis1 : visitVisible s (sceneProjection s) (sceneViewportM s) v1 = true)
    (hvis2 : visitVisible s (sceneProjection s) (sceneViewportM s) v2 = true) :
    ∃ a, cLookup (finalState s σ).cache v1.surface.id = some a ∧
      2 ≤ (render s σ).2.count a ∧
      (∀ (largs : List SVisit) (vlast : SVisit),
        argsOfId v1.surface.id (svisitsScene s) = largs ++ [vlast] →
        ((finalState s σ).heap.getD a blankModel).transform = vlast.transform ∧
        ((finalState s σ).heap.getD a blankModel).transformed =
          transformedOf ((finalState s σ).heap.getD a blankModel).surface
            vlast.transform) := by
  unfold finalState
  obtain ⟨chWF, chLen, chMono, chNone, chSome, chContent, chOut, chCoh⟩ :=
    runVisits_char s (sceneProjection s) (sceneViewportM s) hc (svisitsScene s) σ
      hwf hidc hcoh
  have hv1 : v1 ∈ svisitsScene s := by
    rw [hsplit]
    simp
  have hargs1 : argsOfId v1.surface.id (svisitsScene s) ≠ [] := by
    apply List.ne_nil_of_mem (a := v1)
    unfold argsOfId
    rw [List.mem_filter]
    exact ⟨hv1, by simp⟩
  obtain ⟨a, ha⟩ := chSome v1.surface.id hargs1
  refine ⟨a, ha, ?_, ?_⟩
  · have hcount : 2 ≤ (presortAddrs s σ).count a := by
      show 2 ≤ (runVisits s (sceneProjection s) (sceneViewportM s)
        (svisitsScene s) σ).2.count a
      rw [chOut, hsplit]
      rw [List.filterMap_append]
      rw [List.filterMap_cons]
      rw [List.filterMap_append]
      rw [List.filterMap_cons]
      rw [if_pos hvis1, if_pos hvis2]
      rw [← hsplit]
      rw [ha, ← hid, ha]
      simp only [List.count_append, List.count_cons_self]
      omega
    have hperm : ((render s σ).2).Perm (presortAddrs s σ) := by
      have hr := render_eq s σ
      have h2 : (render s σ).2 = sortAddrs (finalState s σ).heap (presortAddrs s σ) := by
        rw [hr]
      rw [h2]
      exact sortDesc_perm _ _
    rw [hperm.count_eq]
    exact hcount
  · intro largs vlast heq
    rcases chContent v1.surface.id a ha with ⟨hl0, hcont⟩ |
      ⟨hl0, hle, v0, vrest, hargs0, hcont⟩
    · rw [heq] at hcont
      obtain ⟨ht, htr⟩ := foldl_stepContent_last_fields s (sceneProjection s)
        (sceneViewportM s) (σ.heap.getD a blankModel) largs vlast
      rw [hcont]
      refine ⟨ht, ?_⟩
      rw [htr, foldl_stepContent_surface]
    · rw [heq] at hargs0
      rw [← hargs0] at hcont
      obtain ⟨ht, htr⟩ := foldl_stepContent_last_fields s (sceneProjection s)
        (sceneViewportM s) (blankFor v0.surface) largs vlast
      rw [hcont]
      refine ⟨ht, ?_⟩
      rw [htr, foldl_stepContent_surface]

/-- C4: with caching enabled, rendering an identical, unchanged scene twice
returns the very same addresses — for each surface the same RenderModel
object, reference-stable through the reused cache slot — and the records
recomputed by the second call, their projected geometry included, equal those
of the first call; `render` is a pure function of the scene and threaded
state. -/
theorem C4_render_twice_stable (s : Scene) (σ : RState)
    (hc : s.cache = true) (hwf : WFState σ)
    (hidc : IdCoherent (svisitsScene s)) (hcoh : Coherent (svisitsScene s) σ) :
    (render s (render s σ).1).2 = (render s σ).2 ∧
    (∀ a ∈ (render s σ).2,
      (render s (render s σ).1).1.heap.getD a blankModel =
        (render s σ).1.heap.getD a blankModel) ∧
    (∀ a ∈ (render s σ).2,
      ((render s (render s σ).1).1.heap.getD a blankModel).projected =
        ((render s σ).1.heap.getD a blankModel).projected) := by
  obtain ⟨ch1WF, ch1Len, ch1Mono, ch1None, ch1Some, ch1Content, ch1Out, ch1Coh⟩ :=
    runVisits_char s (sceneProjection s) (sceneViewportM s) hc (svisitsScene s) σ
      hwf hidc hcoh
  obtain ⟨ch2WF, ch2Len, ch2Mono, ch2None, ch2Some, ch2Content, ch2Out, ch2Coh⟩ :=
    runVisits_char s (sceneProjection s) (sceneViewportM s) hc (svisitsScene s)
      (finalState s σ) ch1WF hidc ch1Coh
  have hfs1 : (runVisits s (sceneProjection s) (sceneViewportM s) (svisitsScene s) σ).1 =
      finalState s σ := rfl
  have hps1 : (runVisits s (sceneProjection s) (sceneViewportM s) (svisitsScene s) σ).2 =
      presortAddrs s σ := rfl
  have hfs2 : (runVisits s (sceneProjection s) (sceneViewportM s) (svisitsScene s)
      (finalState s σ)).1 = finalState s (finalState s σ) := rfl
  have hps2 : (runVisits s (sceneProjection s) (sceneViewportM s) (svisitsScene s)
      (finalState s σ)).2 = presortAddrs s (finalState s σ) := rfl
  rw [hfs1] at ch1Mono ch1Some ch1Content
  rw [hps1, hfs1] at ch1Out
  rw [hfs2] at ch2Mono ch2Content
  rw [hps2, hfs2] at ch2Out
  have hmem_args : ∀ v ∈ svisitsScene s, v ∈ argsOfId v.surface.id (svisitsScene s) := by
    intro v hv
    unfold argsOfId
    rw [List.mem_filter]
    exact ⟨hv, by simp⟩
  have hargs_sub : ∀ i v, v ∈ argsOfId i (svisitsScene s) →
      v ∈ svisitsScene s ∧ v.surface.id = i := by
    intro i v hv
    unfold argsOfId at hv
    rw [List.mem_filter] at hv
    exact ⟨hv.1, by simpa using hv.2⟩
  -- the second walk preserves every cached slot's content
  have hF1 : ∀ i a, cLookup (finalState s (finalState s σ)).cache i = some a →
      cLookup (finalState s σ).cache i = some a ∧
      (finalState s (finalState s σ)).heap.getD a blankModel =
        (finalState s σ).heap.getD a blankModel := by
    intro i a h2
    rcases ch2Content i a h2 with ⟨hl1, hcont2⟩ | ⟨hl1, _, v0, vrest, hargs, _⟩
    · refine ⟨hl1, ?_⟩
      rcases hargse : argsOfId i (svisitsScene s) with _ | ⟨w, ws⟩
      · rw [hcont2, hargse, List.foldl_nil]
      · rw [hcont2, hargse]
        rcases ch1Content i a hl1 with ⟨hl0, hcont1⟩ |
          ⟨hl0, _, v0, vrest, hargs0, hcont1⟩
        · have hsurf : ∀ v ∈ w :: ws, v.surface = (σ.heap.getD a blankModel).surface := by
            intro v hv
            rw [← hargse] at hv
            obtain ⟨hvs, hvid⟩ := hargs_sub i v hv
            exact (hcoh i a hl0 v hvs hvid).symm
          rw [hcont1, hargse]
          exact foldl_stepContent_idem s _ _ (w :: ws) _ (List.cons_ne_nil w ws) hsurf
        · rw [hargse] at hargs0
          have hv0 : v0 = w := by
            injection hargs0 with h1 _
            exact h1.symm
          have hvr : vrest = ws := by
            injection hargs0 with _ h2
            exact h2.symm
          subst hv0
          subst hvr
          have hsurf : ∀ v ∈ v0 :: vrest, v.surface = (blankFor v0.surface).surface := by
            intro v hv
            rw [← hargse] at hv
            obtain ⟨hvs, hvid⟩ := hargs_sub i v hv
            have hv0id : v0.surface.id = i := by
              have hv0mem : v0 ∈ argsOfId i (svisitsScene s) := by
                rw [hargse]
                exact List.mem_cons_self _ _
              exact (hargs_sub i v0 hv0mem).2
            have hv0s : v0 ∈ svisitsScene s := by
              have hv0mem : v0 ∈ argsOfId i (svisitsScene s) := by
                rw [hargse]
                exact List.mem_cons_self _ _
              exact (hargs_sub i v0 hv0mem).1
            show v.surface = v0.surface
            exact hidc v hvs v0 hv0s (by rw [hvid, hv0id])
          rw [hcont1]
          exact foldl_stepContent_idem s _ _ (v0 :: vrest) _ (List.cons_ne_nil v0 vrest) hsurf
    · obtain ⟨b, hb⟩ := ch1Some i (by rw [hargs]; exact List.cons_ne_nil v0 vrest)
      rw [hl1] at hb
      exact Option.noConfusion hb
  -- the two walks push the same addresses in the same order
  have hF2 : presortAddrs s (finalState s σ) = presortAddrs s σ := by
    rw [ch2Out, ch1Out]
    apply List.filterMap_congr
    intro v hv
    by_cases hvis : visitVisible s (sceneProjection s) (sceneViewportM s) v = true
    · rw [if_pos hvis, if_pos hvis]
      obtain ⟨a, ha⟩ := ch1Some v.surface.id
        (List.ne_nil_of_mem (hmem_args v hv))
      rw [ha]
      exact ch2Mono v.surface.id a ha
    · rw [if_neg hvis, if_neg hvis]
  have hmem_presort : ∀ a ∈ presortAddrs s σ,
      cLookup (finalState s σ).cache a = none ∨ True := fun _ _ => Or.inr trivial
  have hF3 : ∀ a ∈ presortAddrs s σ,
      ∃ i, cLookup (finalState s σ).cache i = some a := by
    intro a ha
    rw [ch1Out] at ha
    obtain ⟨v, _, hfv⟩ := List.mem_filterMap.mp ha
    by_cases hvis : visitVisible s (sceneProjection s) (sceneViewportM s) v = true
    · rw [if_pos hvis] at hfv
      exact ⟨v.surface.id, hfv⟩
    · rw [if_neg hvis] at hfv
      exact Option.noConfusion hfv
  have hkeys : ∀ a ∈ presortAddrs s σ,
      keyOf (finalState s (finalState s σ)).heap a = keyOf (finalState s σ).heap a := by
    intro a ha
    obtain ⟨i, hi⟩ := hF3 a ha
    have h2 := ch2Mono i a hi
    obtain ⟨_, hcontent⟩ := hF1 i a h2
    unfold keyOf
    rw [hcontent]
  have hrender1 : render s σ =
      (finalState s σ, sortAddrs (finalState s σ).heap (presortAddrs s σ)) :=
    render_eq s σ
  have hrender2 : render s (finalState s σ) =
      (finalState s (finalState s σ),
        sortAddrs (finalState s (finalState s σ)).heap (presortAddrs s (finalState s σ))) :=
    render_eq s (finalState s σ)
  have hfst1 : (render s σ).1 = finalState s σ := by rw [hrender1]
  have hsnd1 : (render s σ).2 = sortAddrs (finalState s σ).heap (presortAddrs s σ) := by
    rw [hrender1]
  have hsorted_eq : sortAddrs (finalState s (finalState s σ)).heap (presortAddrs s σ) =
      sortAddrs (finalState s σ).heap (presortAddrs s σ) := by
    unfold sortAddrs
    exact sortDesc_congr _ _ _ hkeys
  have hsndmem : ∀ a, a ∈ (render s σ).2 → a ∈ presortAddrs s σ := by
    intro a ha
    rw [hsnd1] at ha
    rw [mem_sortAddrs] at ha
    exact ha
  refine ⟨?_, ?_, ?_⟩
  · rw [hfst1, hrender2, hF2, hsorted_eq, hsnd1]
  · intro a ha
    obtain ⟨i, hi⟩ := hF3 a (hsndmem a ha)
    have h2 := ch2Mono i a hi
    obtain ⟨_, hcontent⟩ := hF1 i a h2
    rw [hfst1, hrender2]
    show (finalState s (finalState s σ)).heap.getD a blankModel = _
    rw [hcontent]
  · intro a ha
    obtain ⟨i, hi⟩ := hF3 a (hsndmem a ha)
    have h2 := ch2Mono i a hi
    obtain ⟨_, hcontent⟩ := hF1 i a h2
    rw [hfst1, hrender2]
    show ((finalState s (finalState s σ)).heap.getD a blankModel).projected = _
    rw [hcontent]

/-!
Content of output records: every address in the pre-sort output holds the
fold of its surface's visits, with a base record carrying that surface.
-/

theorem stepContent_consistent (s : Scene) (pj vp : M4) (c : RenderModel) (v : SVisit)
    (hf : s.fractionalPoints = true) :
    (stepContent s pj vp c v).projected =
      projectedOf (stepContent s pj vp c v).surface (stepContent s pj vp c v).transform
        (stepContent s pj vp c v).projection (stepContent s pj vp c v).viewport := by
  obtain ⟨h1, h2, h3, _⟩ := stepContent_fields s pj vp c v
  rw [stepContent_projected_fractional s pj vp c v hf, h1, h2, h3, stepContent_surface]

theorem output_content_cached (s : Scene) (σ : RState)
    (hc : s.cache = true) (hwf : WFState σ)
    (hidc : IdCoherent (svisitsScene s)) (hcoh : Coherent (svisitsScene s) σ) :
    ∀ a ∈ presortAddrs s σ,
      ∃ (base : RenderModel) (v : SVisit),
        v ∈ svisitsScene s ∧
        visitVisible s (sceneProjection s) (sceneViewportM s) v = true ∧
        argsOfId v.surface.id (svisitsScene s) ≠ [] ∧
        (∀ v' ∈ argsOfId v.surface.id (svisitsScene s), v'.surface = base.surface) ∧
        (finalState s σ).heap.getD a blankModel =
          List.foldl (stepContent s (sceneProjection s) (sceneViewportM s)) base
            (argsOfId v.surface.id (svisitsScene s)) := by
  obtain ⟨chWF, chLen, chMono, chNone, chSome, chContent, chOut, chCoh⟩ :=
    runVisits_char s (sceneProjection s) (sceneViewportM s) hc (svisitsScene s) σ
      hwf hidc hcoh
  have hfs : (runVisits s (sceneProjection s) (sceneViewportM s) (svisitsScene s) σ).1 =
      finalState s σ := rfl
  rw [hfs] at chContent chOut
  have hargs_sub : ∀ i v, v ∈ argsOfId i (svisitsScene s) →
      v ∈ svisitsScene s ∧ v.surface.id = i := by
    intro i v hv
    unfold argsOfId at hv
    rw [List.mem_filter] at hv
    exact ⟨hv.1, by simpa using hv.2⟩
  intro a ha
  have ha' : a ∈ (runVisits s (sceneProjection s) (sceneViewportM s)
      (svisitsScene s) σ).2 := ha
  rw [chOut] at ha'
  obtain ⟨v, hvvs, hfv⟩ := List.mem_filterMap.mp ha'
  by_cases hvis : visitVisible s (sceneProjection s) (sceneViewportM s) v = true
  · rw [if_pos hvis] at hfv
    have hargsne : argsOfId v.surface.id (svisitsScene s) ≠ [] := by
      apply List.ne_nil_of_mem (a := v)
      unfold argsOfId
      rw [List.mem_filter]
      exact ⟨hvvs, by simp⟩
    rcases chContent v.surface.id a hfv with ⟨hl0, hcont⟩ |
      ⟨hl0, _, v0, vrest, hargs0, hcont⟩
    · refine ⟨σ.heap.getD a blankModel, v, hvvs, hvis, hargsne, ?_, hcont⟩
      intro v' hv'
      obtain ⟨hvs', hvid'⟩ := hargs_sub _ v' hv'
      exact (hcoh v.surface.id a hl0 v' hvs' hvid').symm
    · refine ⟨blankFor v0.surface, v, hvvs, hvis, hargsne, ?_, ?_⟩
      · intro v' hv'
        obtain ⟨hvs', hvid'⟩ := hargs_sub _ v' hv'
        have hv0mem : v0 ∈ argsOfId v.surface.id (svisitsScene s) := by
          rw [hargs0]
          exact List.mem_cons_self _ _
        obtain ⟨hv0s, hv0id⟩ := hargs_sub _ v0 hv0mem
        show v'.surface = v0.surface
        exact hidc v' hvs' v0 hv0s (by rw [hvid', hv0id])
      · rw [hcont, hargs0]
  · rw [if_neg hvis] at hfv
    exact Option.noConfusion hfv

theorem output_content_nocache (s : Scene) (σ : RState) (hc : s.cache = false) :
    ∀ a ∈ presortAddrs s σ,
      ∃ v ∈ svisitsScene s,
        visitVisible s (sceneProjection s) (sceneViewportM s) v = true ∧
        (finalState s σ).heap.getD a blankModel =
          stepContent s (sceneProjection s) (sceneViewportM s) (blankFor v.surface) v := by
  obtain ⟨_, _, _, hout⟩ :=
    runVisits_nocache_char s (sceneProjection s) (sceneViewportM s) hc (svisitsScene s) σ
  intro a ha
  obtain ⟨_, v, hvvs, hvis, hcont⟩ := hout a ha
  exact ⟨v, hvvs, hvis, hcont⟩

theorem outputModels_mem (s : Scene) (σ : RState) (m : RenderModel)
    (hm : m ∈ outputModels s σ) :
    ∃ a ∈ presortAddrs s σ, m = (finalState s σ).heap.getD a blankModel := by
  unfold outputModels at hm
  obtain ⟨a, ha, hma⟩ := List.mem_map.mp hm
  refine ⟨a, ?_, ?_⟩
  · have h2 : (render s σ).2 = sortAddrs (finalState s σ).heap (presortAddrs s σ) := by
      rw [render_eq]
    rw [h2] at ha
    rw [mem_sortAddrs] at ha
    exact ha
  · have h1 : (render s σ).1 = finalState s σ := by rw [render_eq]
    rw [← hma, h1]

/-- C6 (amended): with `fractionalPoints` false, every projected 2D point
coordinate on every output render model is an integer provided caching is
disabled or no surface is visited more than once in the frame (with caching
on, a later invisible visit of the same surface overwrites the slot with
unrounded geometry after it was output); the rounding is applied in place
after fill/stroke shading and does not alter the transformed geometry the
shading consumed, nor the shading results. With `fractionalPoints` true the
projected geometry of every output model is preserved exactly as projected
from its stored matrices, with no rounding applied. -/
theorem C6_point_quantizer (s : Scene) (σ : RState) (hwf : WFState σ)
    (hidc : IdCoherent (svisitsScene s)) (hcoh : Coherent (svisitsScene s) σ) :
    (s.fractionalPoints = false →
      (s.cache = false ∨ ((svisitsScene s).map (fun v => v.surface.id)).Nodup) →
      ∀ m ∈ outputModels s σ, ∀ p ∈ m.projected.points,
        (∃ k : ℤ, p.x = (k : ℚ)) ∧ (∃ k : ℤ, p.y = (k : ℚ))) ∧
    (s.fractionalPoints = true →
      ∀ m ∈ outputModels s σ,
        m.projected = projectedOf m.surface m.transform m.projection m.viewport) ∧
    (∀ r : RenderModel,
      (roundProjected r).transformed = r.transformed ∧
      (roundProjected r).fill = r.fill ∧ (roundProjected r).stroke = r.stroke) := by
  refine ⟨?_, ?_, ?_⟩
  · intro hf hside m hm p hp
    obtain ⟨a, ha, hma⟩ := outputModels_mem s σ m hm
    rcases hside with hnc | hnd
    · obtain ⟨v, hvvs, hvis, hcont⟩ := output_content_nocache s σ hnc a ha
      rw [hma, hcont] at hp
      rw [stepContent_points_rounded s _ _ (blankFor v.surface) v hf rfl hvis] at hp
      obtain ⟨q, _, hq⟩ := List.mem_map.mp hp
      rw [← hq]
      exact roundPoint_int_coords q
    · by_cases hc : s.cache = true
      · obtain ⟨base, v, hvvs, hvis, hargsne, hsurfs, hcont⟩ :=
          output_content_cached s σ hc hwf hidc hcoh a ha
        have hargs1 : argsOfId v.surface.id (svisitsScene s) = [v] :=
          argsOfId_singleton_of_nodup (svisitsScene s) hnd v hvvs
        rw [hargs1] at hcont
        have hvsurf : v.surface = base.surface := by
          apply hsurfs
          rw [hargs1]
          exact List.mem_singleton.mpr rfl
        rw [hma, hcont, List.foldl_cons, List.foldl_nil] at hp
        rw [stepContent_points_rounded s _ _ base v hf hvsurf hvis] at hp
        obtain ⟨q, _, hq⟩ := List.mem_map.mp hp
        rw [← hq]
        exact roundPoint_int_coords q
      · have : s.cache = false := by
          revert hc
          cases s.cache <;> simp
        obtain ⟨v, hvvs, hvis, hcont⟩ := output_content_nocache s σ this a ha
        rw [hma, hcont] at hp
        rw [stepContent_points_rounded s _ _ (blankFor v.surface) v hf rfl hvis] at hp
        obtain ⟨q, _, hq⟩ := List.mem_map.mp hp
        rw [← hq]
        exact roundPoint_int_coords q
  · intro hf m hm
    obtain ⟨a, ha, hma⟩ := outputModels_mem s σ m hm
    by_cases hc : s.cache = true
    · obtain ⟨base, v, hvvs, hvis, hargsne, hsurfs, hcont⟩ :=
        output_content_cached s σ hc hwf hidc hcoh a ha
      rcases List.eq_nil_or_concat (argsOfId v.surface.id (svisitsScene s)) with
        heq | ⟨l', vlast, heq⟩
      · exact absurd heq hargsne
      · rw [heq] at hcont
        rw [List.concat_eq_append, List.foldl_append, List.foldl_cons,
          List.foldl_nil] at hcont
        rw [hma, hcont]
        exact stepContent_consistent s _ _ _ vlast hf
    · have hnc : s.cache = false := by
        revert hc
        cases s.cache <;> simp
      obtain ⟨v, hvvs, hvis, hcont⟩ := output_content_nocache s σ hnc a ha
      rw [hma, hcont]
      exact stepContent_consistent s _ _ _ v hf
  · intro r
    exact ⟨rfl, rfl, rfl⟩

/-!
Concrete evaluation of the duplicate-visit scene: the first visit is visible
and its output is rounded; the second visit of the same surface is outside the
frustum and overwrites the shared slot with unrounded geometry.
-/

theorem sceneProjection_of_id_mats (s : Scene) (h1 : s.camera = ⟨idM4, idM4⟩)
    (h2 : s.viewport.prescale = idM4) : sceneProjection s = idM4 := by
  simp [sceneProjection, h1, h2, matMul_idM4_idM4]

theorem sceneProjection_exDup : sceneProjection exSceneDup = idM4 :=
  sceneProjection_of_id_mats _ rfl rfl

theorem visitVisible_exVisit (s : Scene) (h : s.cullBackfaces = false) :
    visitVisible s idM4 idM4 exVisit = true := by
  rw [visitVisible_of_cull_off s idM4 idM4 exVisit h]
  exact inFrustrumOf_exSurf_id

theorem visitVisible_exVisitMoved (s : Scene) (h : s.cullBackfaces = false) :
    visitVisible s idM4 idM4 exVisitMoved = false := by
  rw [visitVisible_of_cull_off s idM4 idM4 exVisitMoved h]
  exact inFrustrumOf_exSurf_moved

/-- Counterexample to C6 as stated: in the duplicate-visit scene with
`fractionalPoints` false, `render()`'s output contains a render model one of
whose projected point x-coordinates is not an integer (it is `1/2 + 2`). -/
theorem C6_counterexample :
    exSceneDup.fractionalPoints = false ∧
    ∃ m ∈ outputModels exSceneDup rstateEmpty, ∃ p ∈ m.projected.points,
      ∀ k : ℤ, p.x ≠ (k : ℚ) := by
  constructor
  · rfl
  · have hvA : visitVisible exSceneDup idM4 idM4 exVisit = true :=
      visitVisible_exVisit _ rfl
    have hvB : visitVisible exSceneDup idM4 idM4 exVisitMoved = false :=
      visitVisible_exVisitMoved _ rfl
    set cA := stepContent exSceneDup idM4 idM4 (blankFor exVisit.surface) exVisit with hcA
    have hPA := processVisit_miss exSceneDup idM4 idM4 rstateEmpty exVisit rfl rfl
    rw [hvA] at hPA
    have hPA' : processVisit exSceneDup idM4 idM4 rstateEmpty exVisit =
        (⟨[(1, 0)], [cA]⟩, [0]) := by
      rw [hPA]
      rfl
    have hsurfA : (([cA] : List RenderModel).getD 0 blankModel).surface =
        exVisitMoved.surface := by
      show cA.surface = exVisitMoved.surface
      rw [hcA, stepContent_surface]
      rfl
    set cB := stepContent exSceneDup idM4 idM4 (([cA] : List RenderModel).getD 0 blankModel)
      exVisitMoved with hcB
    have hPB := processVisit_hit exSceneDup idM4 idM4 ⟨[(1, 0)], [cA]⟩ exVisitMoved 0
      rfl rfl (by simp) hsurfA
    rw [hvB] at hPB
    have hPB' : processVisit exSceneDup idM4 idM4 ⟨[(1, 0)], [cA]⟩ exVisitMoved =
        (⟨[(1, 0)], [cB]⟩, []) := by
      rw [hPB]
      rfl
    have hrun : runVisits exSceneDup idM4 idM4 [exVisit, exVisitMoved] rstateEmpty =
        (⟨[(1, 0)], [cB]⟩, [0]) := by
      simp only [runVisits_cons, runVisits_nil, hPA', hPB', List.append_nil,
        List.nil_append]
    have hfinal : finalState exSceneDup rstateEmpty = ⟨[(1, 0)], [cB]⟩ := by
      unfold finalState
      rw [show svisitsScene exSceneDup = [exVisit, exVisitMoved] from rfl]
      rw [sceneProjection_exDup]
      rw [show sceneViewportM exSceneDup = idM4 from rfl]
      rw [hrun]
    have hpresort : presortAddrs exSceneDup rstateEmpty = [0] := by
      unfold presortAddrs
      rw [show svisitsScene exSceneDup = [exVisit, exVisitMoved] from rfl]
      rw [sceneProjection_exDup]
      rw [show sceneViewportM exSceneDup = idM4 from rfl]
      rw [hrun]
    have hrender : render exSceneDup rstateEmpty = (⟨[(1, 0)], [cB]⟩, [0]) := by
      rw [render_eq, hfinal, hpresort]
      rfl
    have hout : outputModels exSceneDup rstateEmpty = [cB] := by
      unfold outputModels
      rw [hrender]
      rfl
    have hcB_eq : cB = updateRM (([cA] : List RenderModel).getD 0 blankModel)
        exVisitMoved.transform idM4 idM4 :=
      stepContent_fill_of_invisible exSceneDup idM4 idM4 _ exVisitMoved hsurfA.symm hvB
    have hsurfA' : (([cA] : List RenderModel).getD 0 blankModel).surface = exSurf :=
      hsurfA
    have hproj : cB.projected = projectedOf exSurf exMoveX2 idM4 idM4 := by
      rw [hcB_eq]
      show projectedOf (([cA] : List RenderModel).getD 0 blankModel).surface
        exVisitMoved.transform idM4 idM4 = projectedOf exSurf exMoveX2 idM4 idM4
      rw [hsurfA']
      rfl
    have hpts : cB.projected.points = [⟨(1 : ℚ)/2 + 2, 0, 0⟩] := by
      rw [hproj]
      simp [projectedOf, clipPointsOf, transformedOf, exSurf, applyM_idM4, applyM_exMoveX2]
    refine ⟨cB, ?_, ⟨(1 : ℚ)/2 + 2, 0, 0⟩, ?_, ?_⟩
    · rw [hout]
      exact List.mem_singleton.mpr rfl
    · rw [hpts]
      exact List.mem_singleton.mpr rfl
    · intro k hk
      have hk' : (1 : ℚ)/2 + 2 = (k : ℚ) := hk
      have h5 : (5 : ℚ) = 2 * (k : ℚ) := by linarith
      have h5' : (5 : ℤ) = 2 * k := by exact_mod_cast h5
      omega

/-!
Discharge helpers for the concrete-scene witnesses.
-/

theorem wfStateEmpty : WFState rstateEmpty :=
  ⟨fun _ _ h => Option.noConfusion h, fun _ _ _ h _ => Option.noConfusion h⟩

theorem cohStateEmpty (vs : List SVisit) : Coherent vs rstateEmpty :=
  fun _ _ h => Option.noConfusion h

theorem idCoherent_exSingle : IdCoherent (svisitsScene exSceneSingle) := by
  intro v hv v' hv' _
  rw [show svisitsScene exSceneSingle = [exVisit] from rfl] at hv hv'
  rcases List.mem_singleton.mp hv with rfl
  rcases List.mem_singleton.mp hv' with rfl
  rfl

theorem idCoherent_exAlias : IdCoherent (svisitsScene exSceneAlias) := by
  intro v hv v' hv' _
  rw [show svisitsScene exSceneAlias = [exVisit, exVisit] from rfl] at hv hv'
  have hs : ∀ w ∈ [exVisit, exVisit], w.surface = exSurf := by
    intro w hw
    rcases List.mem_cons.mp hw with rfl | hw1
    · rfl
    · rcases List.mem_singleton.mp hw1 with rfl
      rfl
  rw [hs v hv, hs v' hv']

theorem mem_exAlias : exVisit ∈ svisitsScene exSceneAlias := by
  rw [show svisitsScene exSceneAlias = [exVisit, exVisit] from rfl]
  exact List.mem_cons_self _ _

theorem sceneProjection_exAlias : sceneProjection exSceneAlias = idM4 :=
  sceneProjection_of_id_mats _ rfl rfl

theorem visitVisible_exAlias :
    visitVisible exSceneAlias (sceneProjection exSceneAlias) (sceneViewportM exSceneAlias)
      exVisit = true := by
  rw [sceneProjection_exAlias]
  rw [show sceneViewportM exSceneAlias = idM4 from rfl]
  exact visitVisible_exVisit _ rfl

/-- Witness for C4: rendering the one-surface scene twice from the empty state
returns the same addresses and equal recomputed records. -/
theorem C4_render_twice_stable_witness :
    (render exSceneSingle (render exSceneSingle rstateEmpty).1).2 =
      (render exSceneSingle rstateEmpty).2 ∧
    (∀ a ∈ (render exSceneSingle rstateEmpty).2,
      (render exSceneSingle (render exSceneSingle rstateEmpty).1).1.heap.getD a blankModel =
        (render exSceneSingle rstateEmpty).1.heap.getD a blankModel) ∧
    (∀ a ∈ (render exSceneSingle rstateEmpty).2,
      ((render exSceneSingle (render exSceneSingle rstateEmpty).1).1.heap.getD a
          blankModel).projected =
        ((render exSceneSingle rstateEmpty).1.heap.getD a blankModel).projected) :=
  C4_render_twice_stable exSceneSingle rstateEmpty rfl wfStateEmpty idCoherent_exSingle
    (cohStateEmpty _)

/-- Witness for C8: the scene that visits one surface twice exercises the
shared cache slot and the last-visit overwrite. -/
theorem C8_cache_slot_identity_witness :
    (∀ i a b, cLookup (finalState exSceneAlias rstateEmpty).cache i = some a →
      cLookup (finalState exSceneAlias rstateEmpty).cache i = some b → a = b) ∧
    (∀ i j a, cLookup (finalState exSceneAlias rstateEmpty).cache i = some a →
      cLookup (finalState exSceneAlias rstateEmpty).cache j = some a → i = j) ∧
    (∀ (σ0 : RState) (t t' pjx pjx' vpx vpx' : M4),
      (renderSurfaceStep exSceneAlias σ0 exVisit.surface t pjx vpx).2 =
        (renderSurfaceStep exSceneAlias σ0 exVisit.surface t' pjx' vpx').2) ∧
    (∃ a, cLookup (finalState exSceneAlias rstateEmpty).cache exVisit.surface.id = some a ∧
      cLookup (finalState exSceneAlias rstateEmpty).cache exVisit.surface.id = some a) ∧
    (∀ (largs : List SVisit) (vlast : SVisit),
      argsOfId exVisit.surface.id (svisitsScene exSceneAlias) = largs ++ [vlast] →
      ∀ a, cLookup (finalState exSceneAlias rstateEmpty).cache exVisit.surface.id = some a →
        ((finalState exSceneAlias rstateEmpty).heap.getD a blankModel).transform =
          vlast.transform ∧
        ((finalState exSceneAlias rstateEmpty).heap.getD a blankModel).transformed =
          transformedOf ((finalState exSceneAlias rstateEmpty).heap.getD a
            blankModel).surface vlast.transform) :=
  C8_cache_slot_identity exSceneAlias rstateEmpty exVisit exVisit rfl wfStateEmpty
    idCoherent_exAlias (cohStateEmpty _) mem_exAlias mem_exAlias rfl

/-- Witness for C10: both visible visits of the shared surface put the same
address into the output twice. -/
theorem C10_aliased_output_witness :
    ∃ a, cLookup (finalState exSceneAlias rstateEmpty).cache exVisit.surface.id = some a ∧
      2 ≤ (render exSceneAlias rstateEmpty).2.count a ∧
      (∀ (largs : List SVisit) (vlast : SVisit),
        argsOfId exVisit.surface.id (svisitsScene exSceneAlias) = largs ++ [vlast] →
        ((finalState exSceneAlias rstateEmpty).heap.getD a blankModel).transform =
          vlast.transform ∧
        ((finalState exSceneAlias rstateEmpty).heap.getD a blankModel).transformed =
          transformedOf ((finalState exSceneAlias rstateEmpty).heap.getD a
            blankModel).surface vlast.transform) :=
  C10_aliased_output exSceneAlias rstateEmpty exVisit exVisit [] [] [] rfl wfStateEmpty
    idCoherent_exAlias (cohStateEmpty _) rfl rfl visitVisible_exAlias visitVisible_exAlias

/-- Witness for C6 (amended): the single-visit scene has unique surface ids,
so its output coordinates are integers when rounding is on, and exactly the
projected geometry when rounding is off. -/
theorem C6_point_quantizer_witness :
    (exSceneSingle.fractionalPoints = false →
      (exSceneSingle.cache = false ∨
        ((svisitsScene exSceneSingle).map (fun v => v.surface.id)).Nodup) →
      ∀ m ∈ outputModels exSceneSingle rstateEmpty, ∀ p ∈ m.projected.points,
        (∃ k : ℤ, p.x = (k : ℚ)) ∧ (∃ k : ℤ, p.y = (k : ℚ))) ∧
    (exSceneSingle.fractionalPoints = true →
      ∀ m ∈ outputModels exSceneSingle rstateEmpty,
        m.projected = projectedOf m.surface m.transform m.projection m.viewport) ∧
    (∀ r : RenderModel,
      (roundProjected r).transformed = r.transformed ∧
      (roundProjected r).fill = r.fill ∧ (roundProjected r).stroke = r.stroke) :=
  C6_point_quantizer exSceneSingle rstateEmpty wfStateEmpty idCoherent_exSingle
    (cohStateEmpty _)

end Seen
